import Mathlib

set_option maxRecDepth 8000

/-!
Verification development for the DEM-to-STL terrain carver
(`terrain_carver.py`).  The core algorithmic parts of the repository are
embedded shallowly:

* floating-point elevation samples are modelled as `Option ℚ`: `some q` is a
  finite sample, `none` is a non-finite value (NaN; the grids handled by the
  claims carry no infinities, and every operation below maps non-finite
  operands to non-finite results exactly as IEEE NaN propagates through
  numpy's elementwise arithmetic);
* real arithmetic is modelled over `ℚ` (exact arithmetic; floating-point
  rounding is not modelled);
* calls into external libraries (scipy's feature transform, geopandas
  buffering plus rasterio rasterization, scipy's gaussian filter) are
  parameters of the embedding, so every theorem quantifies over all possible
  behaviours of those collaborators;
* numpy operations whose shape/error behaviour matters (`np.nanmin` on an
  empty array, `np.vstack` on mismatched row widths) are modelled by
  `Except`-returning functions reproducing numpy's documented behaviour.
-/

namespace TerrainCarver

/-- Model of numpy elementwise addition on float samples: NaN propagates. -/
def fadd : Option ℚ → Option ℚ → Option ℚ
  | some a, some b => some (a + b)
  | _, _ => none

/-- Model of numpy elementwise subtraction on float samples: NaN propagates. -/
def fsub : Option ℚ → Option ℚ → Option ℚ
  | some a, some b => some (a - b)
  | _, _ => none

/-- Model of numpy elementwise multiplication on float samples. -/
def fmul : Option ℚ → Option ℚ → Option ℚ
  | some a, some b => some (a * b)
  | _, _ => none

/-- Model of numpy elementwise division: division by zero yields a non-finite
result (`0/0` is NaN and `x/0` is ±Inf in IEEE; both are collapsed into
`none`, which is adequate because every claim below only distinguishes
finite from non-finite samples). -/
def fdiv : Option ℚ → Option ℚ → Option ℚ
  | some a, some b => if b = 0 then none else some (a / b)
  | _, _ => none

/-- Sum of a list of float samples (models `np.sum`-style accumulation:
any NaN makes the total NaN). -/
def fsum (l : List (Option ℚ)) : Option ℚ := l.foldr fadd (some 0)

/-- A 2D elevation raster: shape `rows × cols`, samples indexed by
(row, column).  `val` is total on `ℕ × ℕ`; only indices below the bounds
correspond to array cells. -/
structure Grid where
  rows : ℕ
  cols : ℕ
  val : ℕ → ℕ → Option ℚ

/-- Embedding of the carving subtraction at the end of
`TerrainCarver.rasterize_roads` (terrain_carver.py lines 393-397):
`np.where(road_mask == 1, elevation_data - road_depth_m, elevation_data)`.
Every cell where the occupancy mask is set gets the depth subtracted
(elementwise float subtraction, so NaN stays NaN); every other cell is the
unchanged input sample.  No clamping of any kind is applied. -/
def carved_elevation (g : Grid) (mask : ℕ → ℕ → Bool) (d : ℚ) : Grid :=
  ⟨g.rows, g.cols, fun i j => if mask i j then fsub (g.val i j) (some d) else g.val i j⟩

/-- Embedding of `TerrainCarver.rasterize_roads` (terrain_carver.py lines
346-401).  The geometric part — projecting the road polylines to a local
UTM frame, buffering them by half the road width and rasterizing the
buffered polygons onto the grid (geopandas + rasterio library calls) — is
abstracted as the parameter `build_mask`, so theorems hold for every
behaviour of those external collaborators.  The in-repository control flow
is kept exactly: a `None` road set or an empty road set returns the
elevation data unchanged; otherwise the mask is built and the carving
subtraction of `carved_elevation` is applied. -/
def rasterize_roads {R T : Type} (build_mask : List R → T → ℚ → ℕ → ℕ → Bool)
    (roads : Option (List R)) (g : Grid) (transform : T)
    (road_width : ℚ) (road_depth : ℚ) : Grid :=
  match roads with
  | none => g
  | some rs =>
      if rs.length = 0 then g
      else carved_elevation g (build_mask rs transform road_width) road_depth

/-- Embedding of `TerrainCarver.fill_voids` (terrain_carver.py lines
447-453): `indices = distance_transform_edt(isnan(e), return_indices=True);
return e[tuple(indices)]`.  The scipy feature transform is abstracted as the
index map `ft`; scipy always returns in-bounds indices, which is the only
property the theorems assume about it. -/
def fill_voids (ft : ℕ × ℕ → ℕ × ℕ) (g : Grid) : Grid :=
  ⟨g.rows, g.cols, fun i j => g.val (ft (i, j)).1 (ft (i, j)).2⟩

/-- Embedding of `np.any(np.isnan(elevation_data))` over the raster cells. -/
def has_nan (g : Grid) : Bool :=
  (List.range g.rows).any fun i => (List.range g.cols).any fun j => (g.val i j).isNone

/-- Embedding of `TerrainCarver.process_elevation_data` (terrain_carver.py
lines 424-445): fill voids when any NaN is present, then apply the
configured number of gaussian smoothing passes (the scipy gaussian filter
is abstracted as the parameter `gaussian`). -/
def process_elevation_data (ft : ℕ × ℕ → ℕ × ℕ) (gaussian : Grid → Grid)
    (smooth_iterations : ℕ) (g : Grid) : Grid :=
  let g1 := if has_nan g then fill_voids ft g else g
  if 0 < smooth_iterations then gaussian^[smooth_iterations] g1 else g1

/-- Configuration subset consumed by `create_mesh`
(`model_width_mm`, `model_height_mm`, `base_thickness_mm`, `vertical_scale`). -/
structure MeshConfig where
  model_width : ℚ
  model_height : ℚ
  base_thickness : ℚ
  vertical_scale : ℚ

/-- List of the finite (non-NaN) samples of the raster, in row-major order. -/
def finite_vals (g : Grid) : List ℚ :=
  (List.range g.rows).flatMap fun i =>
    (List.range g.cols).flatMap fun j => (g.val i j).toList

/-- Embedding of `np.nanmin(elevation_data)`: the smallest finite sample,
or NaN (`none`) when there is none.  (The empty-array `ValueError` raised by
numpy is handled separately in `create_mesh`.) -/
def nanmin (g : Grid) : Option ℚ := (finite_vals g).min?

/-- Embedding of `np.nanmax(elevation_data)`. -/
def nanmax (g : Grid) : Option ℚ := (finite_vals g).max?

/-- Embedding of `elev_range = elev_max - elev_min` (line 471). -/
def elev_range (g : Grid) : Option ℚ := fsub (nanmax g) (nanmin g)

/-- Embedding of `normalized_elev = (elevation_data - elev_min) / elev_range`
(line 476).  There is no guard in the source: a perfectly flat grid gives
`0 / 0`, i.e. NaN. -/
def normalized_elev (g : Grid) (i j : ℕ) : Option ℚ :=
  fdiv (fsub (g.val i j) (nanmin g)) (elev_range g)

/-- Embedding of `max_relief = min(model_width, model_height) * 0.3`
(line 480). -/
def max_relief (cfg : MeshConfig) : ℚ :=
  min cfg.model_width cfg.model_height * (3 / 10)

/-- Embedding of `vertical_mm = normalized_elev * max_relief * vertical_scale`
(line 481). -/
def vertical_mm (cfg : MeshConfig) (g : Grid) (i j : ℕ) : Option ℚ :=
  fmul (fmul (normalized_elev g i j) (some (max_relief cfg))) (some cfg.vertical_scale)

/-- Embedding of `zz = vertical_mm + base_thickness` (line 493): the z
coordinate of the top-surface vertex at grid position (i, j). -/
def top_z (cfg : MeshConfig) (g : Grid) (i j : ℕ) : Option ℚ :=
  fadd (vertical_mm cfg g i j) (some cfg.base_thickness)

/-- Value of `np.linspace(0, len, n)` at position `k` (for `n = 1` numpy
returns the single value 0 here, since the start point is 0). -/
def linspace_val (n : ℕ) (len : ℚ) (k : ℕ) : ℚ :=
  if n ≤ 1 then 0 else (k : ℚ) * len / ((n : ℚ) - 1)

/-- The x coordinate of grid column `j` (line 485). -/
def xcoord (cfg : MeshConfig) (c : ℕ) (j : ℕ) : ℚ :=
  linspace_val c cfg.model_width j

/-- The y coordinate of grid row `i` after the flip
`yy = model_height - yy` (lines 486, 490). -/
def ycoord (cfg : MeshConfig) (r : ℕ) (i : ℕ) : ℚ :=
  cfg.model_height - linspace_val r cfg.model_height i

/-- Embedding of the top-surface vertex buffer (lines 483-500):
`np.column_stack([xx.ravel(), yy.ravel(), zz.ravel()])`.  The row-major
ravel places grid point (i, j) at flat index `i * cols + j`, so flat index
`k` holds the vertex of grid point `(k / cols, k % cols)`. -/
def vertices_top (cfg : MeshConfig) (g : Grid) : List (ℚ × ℚ × Option ℚ) :=
  (List.range (g.rows * g.cols)).map fun k =>
    (xcoord cfg g.cols (k % g.cols), ycoord cfg g.rows (k / g.cols),
     top_z cfg g (k / g.cols) (k % g.cols))

/-- Embedding of the bottom vertex buffer (lines 520-521): a copy of the top
vertices with the z column forced to 0. -/
def vertices_bottom (cfg : MeshConfig) (g : Grid) : List (ℚ × ℚ × Option ℚ) :=
  (List.range (g.rows * g.cols)).map fun k =>
    (xcoord cfg g.cols (k % g.cols), ycoord cfg g.rows (k / g.cols), (some 0 : Option ℚ))

/-- Embedding of the top-surface triangulation loop (lines 503-517): for every
grid cell, the two triangles `[v1, v2, v3]` and `[v2, v4, v3]` with
`v1 = i*cols+j`, `v2 = i*cols+(j+1)`, `v3 = (i+1)*cols+j`,
`v4 = (i+1)*cols+(j+1)`. -/
def faces_top (r c : ℕ) : List (ℕ × ℕ × ℕ) :=
  (List.range (r - 1)).flatMap fun i =>
    (List.range (c - 1)).flatMap fun j =>
      [(i * c + j, i * c + (j + 1), (i + 1) * c + j),
       (i * c + (j + 1), (i + 1) * c + (j + 1), (i + 1) * c + j)]

/-- Embedding of lines 528-529: bottom faces are the top faces offset by the
number of top vertices with the winding reversed (column order [0, 2, 1]). -/
def faces_bottom (r c : ℕ) : List (ℕ × ℕ × ℕ) :=
  (faces_top r c).map fun f => (f.1 + r * c, f.2.2 + r * c, f.2.1 + r * c)

/-- Embedding of the first side-wall loop (lines 534-541), walking row 0. -/
def faces_front (r c : ℕ) : List (ℕ × ℕ × ℕ) :=
  (List.range (c - 1)).flatMap fun j =>
    [(j, j + r * c, j + 1),
     (j + 1, j + r * c, (j + 1) + r * c)]

/-- Embedding of the second side-wall loop (lines 543-551), walking row
`rows - 1` (vertex base index `(rows - 1) * cols`). -/
def faces_back (r c : ℕ) : List (ℕ × ℕ × ℕ) :=
  (List.range (c - 1)).flatMap fun j =>
    [((r - 1) * c + j, (r - 1) * c + (j + 1), (r - 1) * c + j + r * c),
     ((r - 1) * c + (j + 1), (r - 1) * c + (j + 1) + r * c, (r - 1) * c + j + r * c)]

/-- Embedding of the third side-wall loop (lines 553-560), walking column 0. -/
def faces_left (r c : ℕ) : List (ℕ × ℕ × ℕ) :=
  (List.range (r - 1)).flatMap fun i =>
    [(i * c, (i + 1) * c, i * c + r * c),
     ((i + 1) * c, (i + 1) * c + r * c, i * c + r * c)]

/-- Embedding of the fourth side-wall loop (lines 562-569), walking column
`cols - 1`. -/
def faces_right (r c : ℕ) : List (ℕ × ℕ × ℕ) :=
  (List.range (r - 1)).flatMap fun i =>
    [(i * c + (c - 1), i * c + (c - 1) + r * c, (i + 1) * c + (c - 1)),
     ((i + 1) * c + (c - 1), i * c + (c - 1) + r * c, (i + 1) * c + (c - 1) + r * c)]

/-- All four wall strips in source order (faces_sides accumulates front,
back, left, right; lines 532-571). -/
def faces_sides (r c : ℕ) : List (ℕ × ℕ × ℕ) :=
  faces_front r c ++ faces_back r c ++ faces_left r c ++ faces_right r c

/-- The mesh description assembled by `create_mesh` before it is handed to
the external trimesh library: combined vertex buffer (top vertices followed
by bottom vertices) and the three face groups plus their concatenation. -/
structure MeshData where
  vertices : List (ℚ × ℚ × Option ℚ)
  top_faces : List (ℕ × ℕ × ℕ)
  bottom_faces : List (ℕ × ℕ × ℕ)
  side_faces : List (ℕ × ℕ × ℕ)
  all_faces : List (ℕ × ℕ × ℕ)

/-- Row width of a 2-D numpy array built from a list of index triples: an
empty list is a 1-D empty array of shape `(0,)`, which `np.vstack` treats
as one row of width 0; a non-empty list has rows of width 3. -/
def np_width (l : List (ℕ × ℕ × ℕ)) : ℕ := if l.isEmpty then 0 else 3

/-- Model of `np.vstack([a, b, c])` on face arrays: numpy raises
`ValueError: all the input array dimensions ... must match exactly` when the
row widths differ, and concatenates the rows otherwise. -/
def vstack_faces (a b c : List (ℕ × ℕ × ℕ)) : Except String (List (ℕ × ℕ × ℕ)) :=
  if np_width a = np_width b ∧ np_width b = np_width c then Except.ok (a ++ b ++ c)
  else Except.error "all the input array dimensions except for the concatenation axis must match exactly"

/-- Embedding of `TerrainCarver.create_mesh` (terrain_carver.py lines
455-586) up to the point where the assembled buffers are handed to the
external trimesh library.  Failure cases modelled from numpy's behaviour, in
source order: `np.nanmin` raises `ValueError` on a zero-size array (line
469); when the top-face list is empty, `np.array(faces_top)` is a 1-D array
of shape `(0,)` and the two-index fancy indexing `faces_bottom[:, [0, 2, 1]]`
of the bottom-face construction raises `IndexError` (line 529) before the
wall loops run; `np.vstack` raises on mismatched face-array widths (line
574).  There is no explicit shape validation anywhere in the source. -/
def create_mesh (cfg : MeshConfig) (g : Grid) : Except String MeshData :=
  if g.rows = 0 ∨ g.cols = 0 then
    Except.error "zero-size array to reduction operation fmin which has no identity"
  else if (faces_top g.rows g.cols).isEmpty then
    Except.error "too many indices for array: array is 1-dimensional, but 2 were indexed"
  else
    match vstack_faces (faces_top g.rows g.cols) (faces_bottom g.rows g.cols)
        (faces_sides g.rows g.cols) with
    | Except.error e => Except.error e
    | Except.ok fs =>
        Except.ok ⟨vertices_top cfg g ++ vertices_bottom cfg g,
                   faces_top g.rows g.cols, faces_bottom g.rows g.cols,
                   faces_sides g.rows g.cols, fs⟩

/-- Vertex lookup in the combined vertex buffer of a mesh. -/
def vertex_at (m : MeshData) (k : ℕ) : ℚ × ℚ × Option ℚ :=
  m.vertices.getD k (0, 0, some 0)

/-- Divergence-theorem contribution of one oriented triangle to the signed
volume: the flux of the vector field (0, 0, z) through the triangle, i.e.
mean z times the signed area of the triangle's projection onto the xy
plane (half the z component of the cross product of its edge vectors).
Summed over a closed oriented surface this is the standard signed volume
computed from face normals. -/
def tri_flux (a b c : ℚ × ℚ × Option ℚ) : Option ℚ :=
  fmul (fdiv (fadd (fadd a.2.2 b.2.2) c.2.2) (some 3))
    (some (((b.1 - a.1) * (c.2.1 - a.2.1) - (b.2.1 - a.2.1) * (c.1 - a.1)) / 2))

/-- Total signed volume of the assembled triangle list, computed from face
normals via the divergence-theorem sum of `tri_flux` over all faces. -/
def signed_volume (m : MeshData) : Option ℚ :=
  fsum (m.all_faces.map fun f =>
    tri_flux (vertex_at m f.1) (vertex_at m f.2.1) (vertex_at m f.2.2))

/-- Alternative signed-volume formula: one sixth of the determinant
`det [a, b, c]` per oriented triangle (the tetrahedron-to-origin form).
On a closed surface it agrees with `tri_flux`; it is used to cross-check
the concrete counterexample value. -/
def tri_det (a b c : ℚ × ℚ × Option ℚ) : Option ℚ :=
  fdiv (fadd (fsub (fmul (some a.1) (fsub (fmul (some b.2.1) c.2.2) (fmul b.2.2 (some c.2.1))))
          (fmul (some a.2.1) (fsub (fmul (some b.1) c.2.2) (fmul b.2.2 (some c.1)))))
        (fmul a.2.2 (some (b.1 * c.2.1 - b.2.1 * c.1)))) (some 6)

/-- Total signed volume via the determinant formula. -/
def signed_volume_det (m : MeshData) : Option ℚ :=
  fsum (m.all_faces.map fun f =>
    tri_det (vertex_at m f.1) (vertex_at m f.2.1) (vertex_at m f.2.2))

/-- The three undirected edges of an index triangle. -/
def face_edges (f : ℕ × ℕ × ℕ) : List (Sym2 ℕ) :=
  [s(f.1, f.2.1), s(f.2.1, f.2.2), s(f.1, f.2.2)]

/-- All undirected edges of the assembled triangle list (with repetition). -/
def mesh_edges (m : MeshData) : List (Sym2 ℕ) := m.all_faces.flatMap face_edges

/-- Number of triangles of the assembled list that contain a given
undirected edge. -/
def edge_face_count (m : MeshData) (e : Sym2 ℕ) : ℕ :=
  m.all_faces.countP fun f => decide (e ∈ face_edges f)

/-- Face counts of a mesh-construction result, in the order
(top, bottom, side, total); `none` when construction raised. -/
def face_counts (e : Except String MeshData) : Option (ℕ × ℕ × ℕ × ℕ) :=
  e.toOption.map fun m =>
    (m.top_faces.length, m.bottom_faces.length, m.side_faces.length, m.all_faces.length)

/-!
Coordinate-level view of the mesh combinatorics.  The source addresses
vertices through the flattened index `layer_offset + i * cols + j`; for the
edge-sharing proof we name each vertex by its grid coordinates, a view
related to the flat indices by the injective encoding `cenc`.
-/

/-- A mesh vertex named by coordinates: layer (false = top surface,
true = bottom surface), grid row, grid column. -/
abbrev CV := Bool × ℕ × ℕ

/-- Top-surface vertex at grid position (i, j). -/
def ctop (i j : ℕ) : CV := (false, i, j)

/-- Bottom-surface vertex at grid position (i, j). -/
def cbot (i j : ℕ) : CV := (true, i, j)

/-- Flat vertex index used by the source: bottom vertices are offset by the
number `r * c` of top vertices, and each layer is raveled row-major. -/
def cenc (r c : ℕ) (v : CV) : ℕ := (cond v.1 (r * c) 0) + v.2.1 * c + v.2.2

/-- A coordinate vertex that denotes an actual grid point. -/
def cvalid (r c : ℕ) (v : CV) : Prop := v.2.1 < r ∧ v.2.2 < c

/-- Encode all three corners of a coordinate face. -/
def cface_enc (r c : ℕ) (f : CV × CV × CV) : ℕ × ℕ × ℕ :=
  (cenc r c f.1, cenc r c f.2.1, cenc r c f.2.2)

/-- Coordinate form of the top-surface triangulation. -/
def cfaces_top (r c : ℕ) : List (CV × CV × CV) :=
  (List.range (r - 1)).flatMap fun i =>
    (List.range (c - 1)).flatMap fun j =>
      [(ctop i j, ctop i (j + 1), ctop (i + 1) j),
       (ctop i (j + 1), ctop (i + 1) (j + 1), ctop (i + 1) j)]

/-- Coordinate form of the bottom-surface triangulation (reversed winding). -/
def cfaces_bottom (r c : ℕ) : List (CV × CV × CV) :=
  (List.range (r - 1)).flatMap fun i =>
    (List.range (c - 1)).flatMap fun j =>
      [(cbot i j, cbot (i + 1) j, cbot i (j + 1)),
       (cbot i (j + 1), cbot (i + 1) j, cbot (i + 1) (j + 1))]

/-- Coordinate form of the row-0 wall strip. -/
def cfaces_front (c : ℕ) : List (CV × CV × CV) :=
  (List.range (c - 1)).flatMap fun j =>
    [(ctop 0 j, cbot 0 j, ctop 0 (j + 1)),
     (ctop 0 (j + 1), cbot 0 j, cbot 0 (j + 1))]

/-- Coordinate form of the last-row wall strip. -/
def cfaces_back (r c : ℕ) : List (CV × CV × CV) :=
  (List.range (c - 1)).flatMap fun j =>
    [(ctop (r - 1) j, ctop (r - 1) (j + 1), cbot (r - 1) j),
     (ctop (r - 1) (j + 1), cbot (r - 1) (j + 1), cbot (r - 1) j)]

/-- Coordinate form of the column-0 wall strip. -/
def cfaces_left (r : ℕ) : List (CV × CV × CV) :=
  (List.range (r - 1)).flatMap fun i =>
    [(ctop i 0, ctop (i + 1) 0, cbot i 0),
     (ctop (i + 1) 0, cbot (i + 1) 0, cbot i 0)]

/-- Coordinate form of the last-column wall strip. -/
def cfaces_right (r c : ℕ) : List (CV × CV × CV) :=
  (List.range (r - 1)).flatMap fun i =>
    [(ctop i (c - 1), cbot i (c - 1), ctop (i + 1) (c - 1)),
     (ctop (i + 1) (c - 1), cbot i (c - 1), cbot (i + 1) (c - 1))]

/-- All coordinate faces, in the assembly order of the source. -/
def cfaces_all (r c : ℕ) : List (CV × CV × CV) :=
  cfaces_top r c ++ cfaces_bottom r c ++
    (cfaces_front c ++ cfaces_back r c ++ cfaces_left r ++ cfaces_right r c)

/-- The three undirected edges of a coordinate face, as a multiset. -/
def cedges (f : CV × CV × CV) : Multiset (Sym2 CV) :=
  {s(f.1, f.2.1), s(f.2.1, f.2.2), s(f.1, f.2.2)}

/-- The multiset of all undirected coordinate edges of the mesh, with
multiplicity (each face contributes its three edges). -/
def edge_ms (r c : ℕ) : Multiset (Sym2 CV) :=
  ((cfaces_all r c : List (CV × CV × CV)) : Multiset (CV × CV × CV)).bind cedges

/-- Horizontal surface edge: (i, j) — (i, j+1) on layer L. -/
def hseg (L : Bool) (i j : ℕ) : Sym2 CV := s((L, i, j), (L, i, j + 1))

/-- Vertical (row-direction) surface edge: (i, j) — (i+1, j) on layer L. -/
def vseg (L : Bool) (i j : ℕ) : Sym2 CV := s((L, i, j), (L, i + 1, j))

/-- Diagonal surface edge of cell (i, j) on layer L. -/
def dseg (L : Bool) (i j : ℕ) : Sym2 CV := s((L, i, j + 1), (L, i + 1, j))

/-- Vertical wall edge joining the top and bottom vertices over (i, j). -/
def wseg (i j : ℕ) : Sym2 CV := s((false, i, j), (true, i, j))

/-- Wall diagonal on the row-0 strip. -/
def fdiag (j : ℕ) : Sym2 CV := s((true, 0, j), (false, 0, j + 1))

/-- Wall diagonal on the last-row strip. -/
def kdiag (r j : ℕ) : Sym2 CV := s((false, r - 1, j + 1), (true, r - 1, j))

/-- Wall diagonal on the column-0 strip. -/
def ldiag (i : ℕ) : Sym2 CV := s((false, i + 1, 0), (true, i, 0))

/-- Wall diagonal on the last-column strip. -/
def rdiag (c i : ℕ) : Sym2 CV := s((false, i + 1, c - 1), (true, i, c - 1))

/-- The canonical duplicate-free family of mesh edges: every edge of the
assembled mesh, listed once. -/
def canon_ms (r c : ℕ) : Multiset (Sym2 CV) :=
  (∑ i ∈ Finset.range r, ∑ j ∈ Finset.range (c - 1), ({hseg false i j} : Multiset (Sym2 CV))) +
  (∑ i ∈ Finset.range (r - 1), ∑ j ∈ Finset.range c, ({vseg false i j} : Multiset (Sym2 CV))) +
  (∑ i ∈ Finset.range (r - 1), ∑ j ∈ Finset.range (c - 1), ({dseg false i j} : Multiset (Sym2 CV))) +
  (∑ i ∈ Finset.range r, ∑ j ∈ Finset.range (c - 1), ({hseg true i j} : Multiset (Sym2 CV))) +
  (∑ i ∈ Finset.range (r - 1), ∑ j ∈ Finset.range c, ({vseg true i j} : Multiset (Sym2 CV))) +
  (∑ i ∈ Finset.range (r - 1), ∑ j ∈ Finset.range (c - 1), ({dseg true i j} : Multiset (Sym2 CV))) +
  ((∑ j ∈ Finset.range c, ({wseg 0 j} : Multiset (Sym2 CV))) +
   (∑ j ∈ Finset.range c, ({wseg (r - 1) j} : Multiset (Sym2 CV))) +
   (∑ i ∈ Finset.Ico 1 (r - 1), ({wseg i 0} : Multiset (Sym2 CV))) +
   (∑ i ∈ Finset.Ico 1 (r - 1), ({wseg i (c - 1)} : Multiset (Sym2 CV)))) +
  (∑ j ∈ Finset.range (c - 1), ({fdiag j} : Multiset (Sym2 CV))) +
  (∑ j ∈ Finset.range (c - 1), ({kdiag r j} : Multiset (Sym2 CV))) +
  (∑ i ∈ Finset.range (r - 1), ({ldiag i} : Multiset (Sym2 CV))) +
  (∑ i ∈ Finset.range (r - 1), ({rdiag c i} : Multiset (Sym2 CV)))

/-- The mesh description assembled by the success path of `create_mesh`. -/
def assembled_mesh (cfg : MeshConfig) (g : Grid) : MeshData :=
  ⟨vertices_top cfg g ++ vertices_bottom cfg g,
   faces_top g.rows g.cols, faces_bottom g.rows g.cols, faces_sides g.rows g.cols,
   faces_top g.rows g.cols ++ faces_bottom g.rows g.cols ++ faces_sides g.rows g.cols⟩

/-- The three undirected edges of a coordinate face, as a list. -/
def cface_edges (f : CV × CV × CV) : List (Sym2 CV) :=
  [s(f.1, f.2.1), s(f.2.1, f.2.2), s(f.1, f.2.2)]

/-- The 4×4 elevation grid of the spec's §8 scenario:
`[[0,0,0,0],[0,10,10,0],[0,10,10,0],[0,0,0,0]]`. -/
def grid_s8 : Grid :=
  ⟨4, 4, fun i j => if (i = 1 ∨ i = 2) ∧ (j = 1 ∨ j = 2) then some 10 else some 0⟩

/-- The §8 scenario configuration: 100mm × 100mm, base 5mm, vertical scale 1. -/
def cfg_s8 : MeshConfig := ⟨100, 100, 5, 1⟩

/-- A perfectly flat 2×2 grid (every sample 7). -/
def grid_flat : Grid := ⟨2, 2, fun _ _ => some 7⟩

/-- A small non-flat 2×2 grid: column 0 at elevation 0, column 1 at 1. -/
def grid_cx : Grid := ⟨2, 2, fun _ j => if j = 1 then some 1 else some 0⟩

/-- A 1×1 grid with the single sample 5. -/
def grid_one : Grid := ⟨1, 1, fun _ _ => some 5⟩

end TerrainCarver

namespace TerrainCarver

/-! Claim theorems and their supporting lemmas. -/

/-- C5: for every elevation grid, occupancy mask and carve depth, the
road-carving subtraction returns a same-shape grid in which every occupied
cell equals the input sample minus exactly the depth (float subtraction, so
NaN stays NaN) and every unoccupied cell is unchanged; and no clamping is
applied — witnessed by a carved value (-1) strictly below every sample of
its input grid (all 0). -/
theorem C5_road_carver_exact :
    (∀ (g : Grid) (mask : ℕ → ℕ → Bool) (d : ℚ) (i j : ℕ),
        (mask i j = true → (carved_elevation g mask d).val i j = fsub (g.val i j) (some d)) ∧
        (mask i j = false → (carved_elevation g mask d).val i j = g.val i j) ∧
        (carved_elevation g mask d).rows = g.rows ∧
        (carved_elevation g mask d).cols = g.cols) ∧
    ((carved_elevation ⟨1, 1, fun _ _ => some 0⟩ (fun _ _ => true) 1).val 0 0 = some (-1) ∧
      ∀ i j : ℕ, (⟨1, 1, fun _ _ => some 0⟩ : Grid).val i j = some 0) := by
  constructor
  · intro g mask d i j
    refine ⟨fun h => ?_, fun h => ?_, rfl, rfl⟩
    · simp [carved_elevation, h]
    · simp [carved_elevation, h]
  · exact ⟨by norm_num [carved_elevation, fsub], fun i j => rfl⟩

/-- Witness for C5 at a concrete input: a grid with the single sample 3,
an everywhere-true mask and depth 2 carve to `3 - 2`. -/
theorem C5_witness :
    (carved_elevation ⟨1, 1, fun _ _ => some 3⟩ (fun _ _ => true) 2).val 0 0 =
      fsub (some 3) (some 2) :=
  (C5_road_carver_exact.1 ⟨1, 1, fun _ _ => some 3⟩ (fun _ _ => true) 2 0 0).1 rfl

/-- C7: a `None` road set or a road set with zero polylines makes
`rasterize_roads` return the elevation grid unchanged (the very same grid),
for every behaviour of the external buffering/rasterization collaborator;
the function returns normally, it does not raise. -/
theorem C7_empty_roadset_identity :
    ∀ {R T : Type} (build_mask : List R → T → ℚ → ℕ → ℕ → Bool) (g : Grid)
      (tr : T) (w d : ℚ),
      rasterize_roads build_mask none g tr w d = g ∧
      rasterize_roads build_mask (some ([] : List R)) g tr w d = g :=
  fun _ _ _ _ _ => ⟨rfl, rfl⟩

/-- C8: on a void-free grid, the conditioner with zero smoothing passes is
the identity, and hence running it twice is also the identity. -/
theorem C8_conditioner_zero_pass_idempotent :
    ∀ (ft : ℕ × ℕ → ℕ × ℕ) (gaussian : Grid → Grid) (g : Grid),
      has_nan g = false →
      process_elevation_data ft gaussian 0 g = g ∧
      process_elevation_data ft gaussian 0 (process_elevation_data ft gaussian 0 g) = g := by
  intro ft gaussian g h
  have h1 : process_elevation_data ft gaussian 0 g = g := by
    simp [process_elevation_data, h]
  exact ⟨h1, by rw [h1]; exact h1⟩

/-- Witness for C8 at a concrete void-free 2×2 grid. -/
theorem C8_witness :
    process_elevation_data id id 0 ⟨2, 2, fun _ _ => some 1⟩ = ⟨2, 2, fun _ _ => some 1⟩ :=
  (C8_conditioner_zero_pass_idempotent id id ⟨2, 2, fun _ _ => some 1⟩ rfl).1

/-- C9: on a grid whose every cell is a void (NaN), `fill_voids` returns a
grid that still contains only NaN cells — equal to its input — for every
in-bounds-preserving behaviour of the scipy feature transform; the
no-voids postcondition of the conditioner therefore needs at least one
valid sample. -/
theorem C9_fill_voids_all_nan :
    ∀ (ft : ℕ × ℕ → ℕ × ℕ) (g : Grid),
      (∀ p : ℕ × ℕ, p.1 < g.rows → p.2 < g.cols → (ft p).1 < g.rows ∧ (ft p).2 < g.cols) →
      (∀ i j, i < g.rows → j < g.cols → g.val i j = none) →
      ∀ i j, i < g.rows → j < g.cols →
        (fill_voids ft g).val i j = none ∧ (fill_voids ft g).val i j = g.val i j := by
  intro ft g hft hnan i j hi hj
  obtain ⟨h1, h2⟩ := hft (i, j) hi hj
  have hmain : (fill_voids ft g).val i j = none := hnan _ _ h1 h2
  exact ⟨hmain, hmain.trans (hnan i j hi hj).symm⟩

/-- Witness for C9 at a concrete all-NaN 2×2 grid with the identity
feature transform. -/
theorem C9_witness : (fill_voids id ⟨2, 2, fun _ _ => none⟩).val 0 0 = none :=
  (C9_fill_voids_all_nan id ⟨2, 2, fun _ _ => none⟩ (fun _ h1 h2 => ⟨h1, h2⟩)
    (fun _ _ _ _ => rfl) 0 0 (by decide) (by decide)).1

/-- Sum of a constant map over a range. -/
theorem sum_map_const_range (n k : ℕ) : ((List.range n).map (fun _ => k)).sum = n * k := by
  rw [List.map_const']
  simp [List.sum_replicate, smul_eq_mul, Nat.mul_comm]

/-- Length of the top-face list: two triangles per interior cell. -/
theorem length_faces_top (r c : ℕ) : (faces_top r c).length = (r - 1) * ((c - 1) * 2) := by
  simp only [faces_top, List.length_flatMap, Function.comp_def, List.length_cons,
    List.length_nil]
  rw [show (List.map (fun i => (List.map (fun j => 0 + 1 + 1)
      (List.range (c - 1))).sum) (List.range (r - 1))) =
      (List.map (fun _ => (c - 1) * 2) (List.range (r - 1))) from ?_]
  · rw [sum_map_const_range]
  · refine List.map_congr_left fun i _ => ?_
    rw [show (fun j => 0 + 1 + 1) = (fun (j : ℕ) => 2) from rfl, sum_map_const_range]

/-- Length of the bottom-face list. -/
theorem length_faces_bottom (r c : ℕ) :
    (faces_bottom r c).length = (r - 1) * ((c - 1) * 2) := by
  rw [faces_bottom, List.length_map, length_faces_top]

/-- Length of the row-0 wall strip. -/
theorem length_faces_front (r c : ℕ) : (faces_front r c).length = (c - 1) * 2 := by
  simp only [faces_front, List.length_flatMap, Function.comp_def, List.length_cons,
    List.length_nil]
  rw [show (fun j => 0 + 1 + 1) = (fun (j : ℕ) => 2) from rfl, sum_map_const_range]

/-- Length of the last-row wall strip. -/
theorem length_faces_back (r c : ℕ) : (faces_back r c).length = (c - 1) * 2 := by
  simp only [faces_back, List.length_flatMap, Function.comp_def, List.length_cons,
    List.length_nil]
  rw [show (fun j => 0 + 1 + 1) = (fun (j : ℕ) => 2) from rfl, sum_map_const_range]

/-- Length of the column-0 wall strip. -/
theorem length_faces_left (r c : ℕ) : (faces_left r c).length = (r - 1) * 2 := by
  simp only [faces_left, List.length_flatMap, Function.comp_def, List.length_cons,
    List.length_nil]
  rw [show (fun i => 0 + 1 + 1) = (fun (i : ℕ) => 2) from rfl, sum_map_const_range]

/-- Length of the last-column wall strip. -/
theorem length_faces_right (r c : ℕ) : (faces_right r c).length = (r - 1) * 2 := by
  simp only [faces_right, List.length_flatMap, Function.comp_def, List.length_cons,
    List.length_nil]
  rw [show (fun i => 0 + 1 + 1) = (fun (i : ℕ) => 2) from rfl, sum_map_const_range]

/-- Length of the combined wall strip list. -/
theorem length_faces_sides (r c : ℕ) :
    (faces_sides r c).length = (c - 1) * 2 + (c - 1) * 2 + ((r - 1) * 2 + (r - 1) * 2) := by
  simp [faces_sides, length_faces_front, length_faces_back, length_faces_left,
    length_faces_right, Nat.add_assoc]

/-- C2 counterexample: on the §8 scenario input (4×4 grid, 100mm × 100mm,
base 5mm, vertical scale 1) the assembled mesh does not have the claimed
counts (32, 32, 24, 88). -/
theorem C2_counterexample :
    face_counts (create_mesh cfg_s8 grid_s8) ≠ some (32, 32, 24, 88) := by decide

/-- C2 amended: on the §8 scenario input the mesh has 18 top triangles
(two per interior cell: 2·3·3), 18 bottom triangles, 24 side-wall triangles
(2·(4-1)·4) and 60 triangles in total. -/
theorem C2_amended_counts :
    face_counts (create_mesh cfg_s8 grid_s8) = some (18, 18, 24, 60) := by decide

/-- C3: the source has no flat-terrain guard — on a perfectly flat grid
(every sample 7) the normalization divides zero by zero, so every
top-surface vertex z of the assembled mesh is NaN (`none`) instead of the
base thickness 5 claimed by the spec. -/
theorem C3_flat_grid_divide_by_zero :
    top_z cfg_s8 grid_flat 0 0 = none ∧ top_z cfg_s8 grid_flat 0 1 = none ∧
    top_z cfg_s8 grid_flat 1 0 = none ∧ top_z cfg_s8 grid_flat 1 1 = none ∧
    some cfg_s8.base_thickness ≠ (none : Option ℚ) := by
  have hmin : nanmin grid_flat = some 7 := by decide
  have hmax : nanmax grid_flat = some 7 := by decide
  have hrange : elev_range grid_flat = some 0 := by
    rw [elev_range, hmin, hmax]
    show some ((7 : ℚ) - 7) = some 0
    norm_num
  have hz : ∀ i j, top_z cfg_s8 grid_flat i j = none := by
    intro i j
    rw [top_z, vertical_mm, normalized_elev, hmin, hrange]
    show fadd (fmul (fmul (fdiv (fsub (some 7) (some 7)) (some 0)) _) _) _ = none
    simp [fadd, fmul, fdiv, fsub]
  exact ⟨hz 0 0, hz 0 1, hz 1 0, hz 1 1, by simp⟩

/-- The top-face list is empty exactly on degenerate grids. -/
theorem faces_top_eq_nil (r c : ℕ) (h : r ≤ 1 ∨ c ≤ 1) : faces_top r c = [] := by
  have hlen : (faces_top r c).length = 0 := by
    rw [length_faces_top]
    rcases h with h | h
    · have h1 : r - 1 = 0 := by omega
      rw [h1, Nat.zero_mul]
    · have h1 : c - 1 = 0 := by omega
      rw [h1, Nat.zero_mul, Nat.mul_zero]
  exact List.length_eq_zero.mp hlen

/-- C4: for every input grid with fewer than 2 rows or fewer than 2 columns,
`create_mesh` aborts with a fatal error and returns no mesh — via numpy's
zero-size reduction `ValueError` in `np.nanmin` when a dimension is 0, and
via the `IndexError` raised by the two-index fancy indexing of the empty 1-D
top-face array (line 529) when a dimension is 1 — so no partial or empty
mesh is ever produced for such inputs. -/
theorem C4_degenerate_grid_rejected (cfg : MeshConfig) (g : Grid)
    (h : g.rows < 2 ∨ g.cols < 2) :
    ∃ e, create_mesh cfg g = Except.error e := by
  by_cases h0 : g.rows = 0 ∨ g.cols = 0
  · refine ⟨"zero-size array to reduction operation fmin which has no identity", ?_⟩
    simp only [create_mesh]
    rw [if_pos h0]
  · have hemp : (faces_top g.rows g.cols).isEmpty = true := by
      rw [faces_top_eq_nil g.rows g.cols (by omega)]
      rfl
    refine ⟨"too many indices for array: array is 1-dimensional, but 2 were indexed", ?_⟩
    simp only [create_mesh]
    rw [if_neg h0, if_pos hemp]

/-- Closed instance of the C4 theorem: the 1×1 grid aborts with an error. -/
theorem C4_witness :
    ∃ e, create_mesh cfg_s8 grid_one = Except.error e :=
  C4_degenerate_grid_rejected cfg_s8 grid_one (by decide)

/-- Characterization of `List.min?` over ℚ. -/
theorem rat_min?_spec (l : List ℚ) (a : ℚ) (h : l.min? = some a) :
    a ∈ l ∧ ∀ b ∈ l, a ≤ b := by
  haveI : Std.Antisymm fun (x y : ℚ) => x ≤ y := ⟨fun h1 h2 => le_antisymm h1 h2⟩
  exact (List.min?_eq_some_iff (le_refl) (fun x y => min_choice x y)
    (fun _ _ _ => le_min_iff)).mp h

/-- Characterization of `List.max?` over ℚ. -/
theorem rat_max?_spec (l : List ℚ) (a : ℚ) (h : l.max? = some a) :
    a ∈ l ∧ ∀ b ∈ l, b ≤ a := by
  haveI : Std.Antisymm fun (x y : ℚ) => x ≤ y := ⟨fun h1 h2 => le_antisymm h1 h2⟩
  exact (List.max?_eq_some_iff (le_refl) (fun x y => max_choice x y)
    (fun _ _ _ => max_le_iff)).mp h

/-- A non-empty list has a minimum. -/
theorem min?_isSome (l : List ℚ) (h : l ≠ []) : ∃ a, l.min? = some a := by
  cases l with
  | nil => exact absurd rfl h
  | cons x xs => exact ⟨_, List.min?_cons⟩

/-- A non-empty list has a maximum. -/
theorem max?_isSome (l : List ℚ) (h : l ≠ []) : ∃ a, l.max? = some a := by
  cases l with
  | nil => exact absurd rfl h
  | cons x xs => exact ⟨_, List.max?_cons⟩

/-- Every finite in-bounds sample occurs in `finite_vals`. -/
theorem mem_finite_vals (g : Grid) (i j : ℕ) (q : ℚ) (hi : i < g.rows)
    (hj : j < g.cols) (hq : g.val i j = some q) : q ∈ finite_vals g := by
  rw [finite_vals]
  refine List.mem_flatMap.mpr ⟨i, List.mem_range.mpr hi, ?_⟩
  exact List.mem_flatMap.mpr ⟨j, List.mem_range.mpr hj, by rw [hq]; exact List.mem_singleton_self q⟩

/-- Every member of `finite_vals` is an in-bounds finite sample. -/
theorem finite_vals_sound (g : Grid) (q : ℚ) (h : q ∈ finite_vals g) :
    ∃ i j, i < g.rows ∧ j < g.cols ∧ g.val i j = some q := by
  rw [finite_vals] at h
  obtain ⟨i, hi, h⟩ := List.mem_flatMap.mp h
  obtain ⟨j, hj, h⟩ := List.mem_flatMap.mp h
  refine ⟨i, j, List.mem_range.mp hi, List.mem_range.mp hj, ?_⟩
  cases hv : g.val i j with
  | none => rw [hv] at h; exact absurd h (List.not_mem_nil q)
  | some x =>
      rw [hv] at h
      have hqx : q = x := List.mem_singleton.mp (by simpa using h)
      rw [hqx]

/-- On a grid with finite samples and a nonzero elevation range, the
top-surface z at (i, j) evaluates to the normalized relief formula. -/
theorem top_z_eval (cfg : MeshConfig) (g : Grid) (i j : ℕ) (q mn mx : ℚ)
    (hq : g.val i j = some q) (hmin : nanmin g = some mn) (hmax : nanmax g = some mx)
    (hne : mx - mn ≠ 0) :
    top_z cfg g i j =
      some ((q - mn) / (mx - mn) * max_relief cfg * cfg.vertical_scale +
        cfg.base_thickness) := by
  rw [top_z, vertical_mm, normalized_elev, hq, hmin, elev_range, hmax, hmin]
  simp [fadd, fmul, fdiv, fsub, hne]

/-- C6: on every non-flat grid of finite samples, every top-surface vertex
sits at most `0.3 * min(width, height) * vertical_scale` above the base
plane, and some vertex attains exactly that height (for the §8 scenario
this gives maximum z `5 + 0.3 * 100 * 1 = 35`). -/
theorem C6_relief_cap :
    ∀ (cfg : MeshConfig) (g : Grid),
      0 < g.rows → 0 < g.cols →
      (∀ i j, i < g.rows → j < g.cols → (g.val i j).isSome = true) →
      nanmax g ≠ nanmin g →
      0 < cfg.model_width → 0 < cfg.model_height → 0 ≤ cfg.vertical_scale →
      (∀ i j, i < g.rows → j < g.cols → ∃ z, top_z cfg g i j = some z ∧
        z ≤ cfg.base_thickness +
          min cfg.model_width cfg.model_height * (3 / 10) * cfg.vertical_scale) ∧
      (∃ i j, i < g.rows ∧ j < g.cols ∧ top_z cfg g i j =
        some (cfg.base_thickness +
          min cfg.model_width cfg.model_height * (3 / 10) * cfg.vertical_scale)) := by
  intro cfg g hr hc hsome hneq hW hH hs
  have hnn : finite_vals g ≠ [] := by
    obtain ⟨q, hq⟩ := Option.isSome_iff_exists.mp (hsome 0 0 hr hc)
    exact List.ne_nil_of_mem (mem_finite_vals g 0 0 q hr hc hq)
  obtain ⟨mn, hmin⟩ := min?_isSome _ hnn
  obtain ⟨mx, hmax⟩ := max?_isSome _ hnn
  have hminS : nanmin g = some mn := hmin
  have hmaxS : nanmax g = some mx := hmax
  have hmn_le : ∀ b ∈ finite_vals g, mn ≤ b := (rat_min?_spec _ _ hmin).2
  have hmx_ge : ∀ b ∈ finite_vals g, b ≤ mx := (rat_max?_spec _ _ hmax).2
  have hmnmx : mn ≤ mx := hmx_ge _ (rat_min?_spec _ _ hmin).1
  have hne2 : mx ≠ mn := by
    rw [hmaxS, hminS] at hneq
    exact fun h => hneq (by rw [h])
  have hpos : 0 < mx - mn := sub_pos.mpr (lt_of_le_of_ne hmnmx (Ne.symm hne2))
  have hR : 0 < max_relief cfg := by
    rw [max_relief]
    have : 0 < min cfg.model_width cfg.model_height := lt_min hW hH
    positivity
  have hRs : 0 ≤ max_relief cfg * cfg.vertical_scale := mul_nonneg (le_of_lt hR) hs
  constructor
  · intro i j hi hj
    obtain ⟨q, hq⟩ := Option.isSome_iff_exists.mp (hsome i j hi hj)
    refine ⟨_, top_z_eval cfg g i j q mn mx hq hminS hmaxS (ne_of_gt hpos), ?_⟩
    have h1 : mn ≤ q := hmn_le _ (mem_finite_vals g i j q hi hj hq)
    have h2 : q ≤ mx := hmx_ge _ (mem_finite_vals g i j q hi hj hq)
    have hnq1 : (q - mn) / (mx - mn) ≤ 1 := by
      rw [div_le_one hpos]; linarith
    have hnq0 : 0 ≤ (q - mn) / (mx - mn) := div_nonneg (by linarith) (le_of_lt hpos)
    have hb : (q - mn) / (mx - mn) * (max_relief cfg * cfg.vertical_scale) ≤
        max_relief cfg * cfg.vertical_scale := mul_le_of_le_one_left hRs hnq1
    calc (q - mn) / (mx - mn) * max_relief cfg * cfg.vertical_scale + cfg.base_thickness
        = (q - mn) / (mx - mn) * (max_relief cfg * cfg.vertical_scale) +
            cfg.base_thickness := by ring
      _ ≤ min cfg.model_width cfg.model_height * (3 / 10) * cfg.vertical_scale +
            cfg.base_thickness := by rw [max_relief] at hb ⊢; linarith
      _ = cfg.base_thickness +
            min cfg.model_width cfg.model_height * (3 / 10) * cfg.vertical_scale := by ring
  · obtain ⟨i, j, hi, hj, hq⟩ := finite_vals_sound g mx (rat_max?_spec _ _ hmax).1
    refine ⟨i, j, hi, hj, ?_⟩
    rw [top_z_eval cfg g i j mx mn mx hq hminS hmaxS (ne_of_gt hpos)]
    congr 1
    rw [div_self (ne_of_gt hpos), max_relief]
    ring

/-- Witness for C6 at the §8 scenario input: the maximum top z is
`5 + min 100 100 * (3/10) * 1`, i.e. 35. -/
theorem C6_witness :
    (∃ i j, i < grid_s8.rows ∧ j < grid_s8.cols ∧ top_z cfg_s8 grid_s8 i j =
      some (cfg_s8.base_thickness +
        min cfg_s8.model_width cfg_s8.model_height * (3 / 10) * cfg_s8.vertical_scale)) ∧
    cfg_s8.base_thickness +
        min cfg_s8.model_width cfg_s8.model_height * (3 / 10) * cfg_s8.vertical_scale = 35 :=
  ⟨(C6_relief_cap cfg_s8 grid_s8 (by decide) (by decide)
      (by intro i j _ _; by_cases h : (i = 1 ∨ i = 2) ∧ (j = 1 ∨ j = 2) <;> simp [grid_s8, h])
      (by decide) (by decide) (by decide) (by decide)).2,
    by norm_num [cfg_s8]⟩

/-- C10: a cell of the carved grid is NaN exactly when the corresponding
input cell is NaN — carving an occupied void cell leaves it void (NaN minus
the depth is NaN) and carving never turns a finite cell into NaN. -/
theorem C10_carve_preserves_nan_exactly :
    ∀ (g : Grid) (mask : ℕ → ℕ → Bool) (d : ℚ) (i j : ℕ),
      ((carved_elevation g mask d).val i j = none ↔ g.val i j = none) := by
  intro g mask d i j
  cases h : mask i j
  · simp [carved_elevation, h]
  · cases hv : g.val i j <;> simp [carved_elevation, h, fsub, hv]

/-! Support for the mesh closedness and signed-volume analysis (C1). -/

/-- A list with at least one element stacks with row width 3. -/
theorem np_width_of_ne (l : List (ℕ × ℕ × ℕ)) (h : l.length ≠ 0) : np_width l = 3 := by
  rw [np_width, if_neg]
  simp only [List.isEmpty_iff]
  intro hnil
  exact h (by rw [hnil]; rfl)

/-- On a grid with at least a 2×2 shape, `create_mesh` succeeds and returns
exactly the assembled buffers. -/
theorem create_mesh_ok (cfg : MeshConfig) (g : Grid) (hr : 2 ≤ g.rows)
    (hc : 2 ≤ g.cols) : create_mesh cfg g = Except.ok (assembled_mesh cfg g) := by
  have h0 : ¬(g.rows = 0 ∨ g.cols = 0) := by omega
  have hlt : (faces_top g.rows g.cols).length ≠ 0 := by
    rw [length_faces_top]
    have h1 : 1 ≤ g.rows - 1 := by omega
    have h2 : 1 ≤ g.cols - 1 := by omega
    positivity
  have wt : np_width (faces_top g.rows g.cols) = 3 := np_width_of_ne _ hlt
  have hne : ¬((faces_top g.rows g.cols).isEmpty = true) := by
    rw [List.isEmpty_iff]
    intro hnil
    exact hlt (by rw [hnil]; rfl)
  have wb : np_width (faces_bottom g.rows g.cols) = 3 := by
    refine np_width_of_ne _ ?_
    rw [length_faces_bottom]
    have h1 : 1 ≤ g.rows - 1 := by omega
    have h2 : 1 ≤ g.cols - 1 := by omega
    positivity
  have ws : np_width (faces_sides g.rows g.cols) = 3 := by
    refine np_width_of_ne _ ?_
    rw [length_faces_sides]
    omega
  simp only [create_mesh]
  rw [if_neg h0, if_neg hne, vstack_faces, if_pos ⟨by rw [wt, wb], by rw [wb, ws]⟩]
  rfl

/-- Element lookup with default in a mapped range. -/
theorem getD_map_range {α : Type} (n k : ℕ) (f : ℕ → α) (d : α) (hk : k < n) :
    ((List.range n).map f).getD k d = f k := by
  rw [List.getD_eq_getElem _ _ (by simpa using hk), List.getElem_map, List.getElem_range]

/-- A grid index pair encodes below the vertex count. -/
theorem rowcol_lt (r c i j : ℕ) (hi : i < r) (hj : j < c) : i * c + j < r * c := by
  calc i * c + j < i * c + c := by omega
    _ = (i + 1) * c := by ring
    _ ≤ r * c := Nat.mul_le_mul_right c hi

/-- Top-surface vertex lookup in the assembled vertex buffer. -/
theorem vertex_at_top (cfg : MeshConfig) (g : Grid) (i j : ℕ) (hi : i < g.rows)
    (hj : j < g.cols) :
    vertex_at (assembled_mesh cfg g) (i * g.cols + j) =
      (xcoord cfg g.cols j, ycoord cfg g.rows i, top_z cfg g i j) := by
  have hlt : i * g.cols + j < g.rows * g.cols := rowcol_lt _ _ _ _ hi hj
  have hlen : (vertices_top cfg g).length = g.rows * g.cols := by
    simp [vertices_top]
  rw [vertex_at, assembled_mesh]
  rw [List.getD_append _ _ _ _ (by rw [hlen]; exact hlt)]
  rw [vertices_top, getD_map_range _ _ _ _ hlt]
  have hc : 0 < g.cols := by omega
  have hdiv : (i * g.cols + j) / g.cols = i := by
    rw [Nat.mul_comm i g.cols, Nat.mul_add_div hc, Nat.div_eq_of_lt hj, Nat.add_zero]
  have hmod : (i * g.cols + j) % g.cols = j := by
    rw [Nat.mul_comm i g.cols, Nat.mul_add_mod, Nat.mod_eq_of_lt hj]
  rw [hdiv, hmod]

/-- Bottom-surface vertex lookup in the assembled vertex buffer. -/
theorem vertex_at_bot (cfg : MeshConfig) (g : Grid) (i j : ℕ) (hi : i < g.rows)
    (hj : j < g.cols) :
    vertex_at (assembled_mesh cfg g) (i * g.cols + j + g.rows * g.cols) =
      (xcoord cfg g.cols j, ycoord cfg g.rows i, (some 0 : Option ℚ)) := by
  have hlt : i * g.cols + j < g.rows * g.cols := rowcol_lt _ _ _ _ hi hj
  have hlen : (vertices_top cfg g).length = g.rows * g.cols := by
    simp [vertices_top]
  rw [vertex_at, assembled_mesh]
  rw [List.getD_append_right _ _ _ _ (by rw [hlen]; omega)]
  rw [hlen, Nat.add_sub_cancel]
  rw [vertices_bottom, getD_map_range _ _ _ _ hlt]
  have hc : 0 < g.cols := by omega
  have hdiv : (i * g.cols + j) / g.cols = i := by
    rw [Nat.mul_comm i g.cols, Nat.mul_add_div hc, Nat.div_eq_of_lt hj, Nat.add_zero]
  have hmod : (i * g.cols + j) % g.cols = j := by
    rw [Nat.mul_comm i g.cols, Nat.mul_add_mod, Nat.mod_eq_of_lt hj]
  rw [hdiv, hmod]

/-- Membership characterization of the top triangulation. -/
theorem mem_faces_top (r c : ℕ) (f : ℕ × ℕ × ℕ) :
    f ∈ faces_top r c ↔ ∃ i, i < r - 1 ∧ ∃ j, j < c - 1 ∧
      (f = (i * c + j, i * c + (j + 1), (i + 1) * c + j) ∨
       f = (i * c + (j + 1), (i + 1) * c + (j + 1), (i + 1) * c + j)) := by
  simp [faces_top, List.mem_flatMap, List.mem_range]

/-- Membership characterization of the row-0 wall strip. -/
theorem mem_faces_front (r c : ℕ) (f : ℕ × ℕ × ℕ) :
    f ∈ faces_front r c ↔ ∃ j, j < c - 1 ∧
      (f = (j, j + r * c, j + 1) ∨ f = (j + 1, j + r * c, (j + 1) + r * c)) := by
  simp [faces_front, List.mem_flatMap, List.mem_range]

/-- Membership characterization of the last-row wall strip. -/
theorem mem_faces_back (r c : ℕ) (f : ℕ × ℕ × ℕ) :
    f ∈ faces_back r c ↔ ∃ j, j < c - 1 ∧
      (f = ((r - 1) * c + j, (r - 1) * c + (j + 1), (r - 1) * c + j + r * c) ∨
       f = ((r - 1) * c + (j + 1), (r - 1) * c + (j + 1) + r * c, (r - 1) * c + j + r * c)) := by
  simp [faces_back, List.mem_flatMap, List.mem_range]

/-- Membership characterization of the column-0 wall strip. -/
theorem mem_faces_left (r c : ℕ) (f : ℕ × ℕ × ℕ) :
    f ∈ faces_left r c ↔ ∃ i, i < r - 1 ∧
      (f = (i * c, (i + 1) * c, i * c + r * c) ∨
       f = ((i + 1) * c, (i + 1) * c + r * c, i * c + r * c)) := by
  simp [faces_left, List.mem_flatMap, List.mem_range]

/-- Membership characterization of the last-column wall strip. -/
theorem mem_faces_right (r c : ℕ) (f : ℕ × ℕ × ℕ) :
    f ∈ faces_right r c ↔ ∃ i, i < r - 1 ∧
      (f = (i * c + (c - 1), i * c + (c - 1) + r * c, (i + 1) * c + (c - 1)) ∨
       f = ((i + 1) * c + (c - 1), i * c + (c - 1) + r * c, (i + 1) * c + (c - 1) + r * c)) := by
  simp [faces_right, List.mem_flatMap, List.mem_range]

/-- Horizontal spacing of the planar layout. -/
theorem xcoord_succ_sub (cfg : MeshConfig) (c j : ℕ) (hc : 2 ≤ c) :
    xcoord cfg c (j + 1) - xcoord cfg c j = cfg.model_width / ((c : ℚ) - 1) := by
  have h1 : ¬(c ≤ 1) := by omega
  have h2 : ((c : ℚ) - 1) ≠ 0 := by
    have : (2 : ℚ) ≤ (c : ℚ) := by exact_mod_cast hc
    linarith
  rw [xcoord, xcoord, linspace_val, linspace_val, if_neg h1, if_neg h1]
  push_cast
  field_simp
  ring

/-- Horizontal spacing, reversed. -/
theorem xcoord_sub_succ (cfg : MeshConfig) (c j : ℕ) (hc : 2 ≤ c) :
    xcoord cfg c j - xcoord cfg c (j + 1) = -(cfg.model_width / ((c : ℚ) - 1)) := by
  rw [show xcoord cfg c j - xcoord cfg c (j + 1) =
    -(xcoord cfg c (j + 1) - xcoord cfg c j) from by ring, xcoord_succ_sub cfg c j hc]

/-- Vertical spacing of the planar layout (rows run downwards in y). -/
theorem ycoord_succ_sub (cfg : MeshConfig) (r i : ℕ) (hr : 2 ≤ r) :
    ycoord cfg r (i + 1) - ycoord cfg r i = -(cfg.model_height / ((r : ℚ) - 1)) := by
  have h1 : ¬(r ≤ 1) := by omega
  have h2 : ((r : ℚ) - 1) ≠ 0 := by
    have : (2 : ℚ) ≤ (r : ℚ) := by exact_mod_cast hr
    linarith
  rw [ycoord, ycoord, linspace_val, linspace_val, if_neg h1, if_neg h1]
  push_cast
  field_simp
  ring

/-- An option that is some equals some of its default extraction. -/
theorem opt_eq_some_getD (o : Option ℚ) (h : o.isSome = true) : o = some (o.getD 0) := by
  cases o with
  | none => exact absurd h (by simp)
  | some x => rfl

/-- Summing a list of finite float samples gives the finite sum. -/
theorem fsum_map_eq {α : Type} (l : List α) (F : α → Option ℚ)
    (h : ∀ x ∈ l, F x = some ((F x).getD 0)) :
    fsum (l.map F) = some ((l.map fun x => (F x).getD 0).sum) := by
  induction l with
  | nil => rfl
  | cons a t ih =>
      rw [List.map_cons, List.map_cons, List.sum_cons, fsum, List.foldr_cons]
      have ht : fsum (t.map F) = some ((t.map fun x => (F x).getD 0).sum) :=
        ih fun x hx => h x (List.mem_cons_of_mem a hx)
      rw [fsum] at ht
      rw [ht, h a (List.mem_cons_self a t)]
      rfl

/-- Closed evaluation of the flux contribution on finite vertices. -/
theorem tri_flux_eval (x1 y1 x2 y2 x3 y3 z1 z2 z3 : ℚ) :
    tri_flux (x1, y1, some z1) (x2, y2, some z2) (x3, y3, some z3) =
      some ((z1 + z2 + z3) / 3 *
        (((x2 - x1) * (y3 - y1) - (y2 - y1) * (x3 - x1)) / 2)) := by
  rw [tri_flux]
  dsimp only
  simp only [fadd, fdiv, fmul]
  rw [if_neg (by norm_num : ¬(3 : ℚ) = 0)]

/-- A non-empty list of negative rationals has a negative sum. -/
theorem sum_lt_zero (l : List ℚ) (hne : l ≠ []) (h : ∀ x ∈ l, x < 0) : l.sum < 0 := by
  induction l with
  | nil => exact absurd rfl hne
  | cons a t ih =>
      rw [List.sum_cons]
      have ha : a < 0 := h a (List.mem_cons_self a t)
      cases t with
      | nil => simpa using ha
      | cons b u =>
          have ht : (b :: u).sum < 0 :=
            ih (by simp) fun x hx => h x (List.mem_cons_of_mem a hx)
          linarith

/-- On a non-flat grid of finite samples with positive configuration, every
top-surface z is finite and strictly positive. -/
theorem top_z_pos (cfg : MeshConfig) (g : Grid) (hr : 0 < g.rows) (hc : 0 < g.cols)
    (hsome : ∀ i j, i < g.rows → j < g.cols → (g.val i j).isSome = true)
    (hneq : nanmax g ≠ nanmin g)
    (hW : 0 < cfg.model_width) (hH : 0 < cfg.model_height)
    (hbase : 0 < cfg.base_thickness) (hs : 0 ≤ cfg.vertical_scale) :
    ∀ i j, i < g.rows → j < g.cols → ∃ z, top_z cfg g i j = some z ∧ 0 < z := by
  have hnn : finite_vals g ≠ [] := by
    obtain ⟨q, hq⟩ := Option.isSome_iff_exists.mp (hsome 0 0 hr hc)
    exact List.ne_nil_of_mem (mem_finite_vals g 0 0 q hr hc hq)
  obtain ⟨mn, hmin⟩ := min?_isSome _ hnn
  obtain ⟨mx, hmax⟩ := max?_isSome _ hnn
  have hminS : nanmin g = some mn := hmin
  have hmaxS : nanmax g = some mx := hmax
  have hmn_le : ∀ b ∈ finite_vals g, mn ≤ b := (rat_min?_spec _ _ hmin).2
  have hmx_ge : ∀ b ∈ finite_vals g, b ≤ mx := (rat_max?_spec _ _ hmax).2
  have hmnmx : mn ≤ mx := hmx_ge _ (rat_min?_spec _ _ hmin).1
  have hne2 : mx ≠ mn := by
    rw [hmaxS, hminS] at hneq
    exact fun h => hneq (by rw [h])
  have hpos : 0 < mx - mn := sub_pos.mpr (lt_of_le_of_ne hmnmx (Ne.symm hne2))
  have hR : 0 ≤ max_relief cfg := by
    rw [max_relief]
    have h1 : 0 < min cfg.model_width cfg.model_height := lt_min hW hH
    positivity
  intro i j hi hj
  obtain ⟨q, hq⟩ := Option.isSome_iff_exists.mp (hsome i j hi hj)
  refine ⟨_, top_z_eval cfg g i j q mn mx hq hminS hmaxS (ne_of_gt hpos), ?_⟩
  have h1 : mn ≤ q := hmn_le _ (mem_finite_vals g i j q hi hj hq)
  have hnq0 : 0 ≤ (q - mn) / (mx - mn) := div_nonneg (by linarith) (le_of_lt hpos)
  have hprod : 0 ≤ (q - mn) / (mx - mn) * max_relief cfg * cfg.vertical_scale :=
    mul_nonneg (mul_nonneg hnq0 hR) hs
  linarith

/-- The assembled (pre-repair) triangle list has strictly negative total
signed volume: all its faces wind consistently inward. -/
theorem signed_volume_neg (cfg : MeshConfig) (g : Grid)
    (hr : 2 ≤ g.rows) (hc : 2 ≤ g.cols)
    (hsome : ∀ i j, i < g.rows → j < g.cols → (g.val i j).isSome = true)
    (hneq : nanmax g ≠ nanmin g)
    (hW : 0 < cfg.model_width) (hH : 0 < cfg.model_height)
    (hbase : 0 < cfg.base_thickness) (hs : 0 ≤ cfg.vertical_scale) :
    ∃ v, signed_volume (assembled_mesh cfg g) = some v ∧ v < 0 := by
  have hz := top_z_pos cfg g (by omega) (by omega) hsome hneq hW hH hbase hs
  have hcQ : (2 : ℚ) ≤ (g.cols : ℚ) := by exact_mod_cast hc
  have hrQ : (2 : ℚ) ≤ (g.rows : ℚ) := by exact_mod_cast hr
  have hdx : 0 < cfg.model_width / ((g.cols : ℚ) - 1) := div_pos hW (by linarith)
  have hdy : 0 < cfg.model_height / ((g.rows : ℚ) - 1) := div_pos hH (by linarith)
  have key1 : ∀ (S dx dy a b : ℚ), 0 < S → 0 < dx → 0 < dy →
      S / 3 * ((dx * -dy - (a - a) * (b - b)) / 2) < 0 := by
    intro S dx dy a b hS h1 h2
    have he : S / 3 * ((dx * -dy - (a - a) * (b - b)) / 2) = -(S * (dx * dy) / 6) := by
      ring
    rw [he]
    have : 0 < S * (dx * dy) / 6 := by positivity
    linarith
  have key2 : ∀ (S dx dy a : ℚ), 0 < S → 0 < dx → 0 < dy →
      S / 3 * (((a - a) * -dy - -dy * -dx) / 2) < 0 := by
    intro S dx dy a hS h1 h2
    have he : S / 3 * (((a - a) * -dy - -dy * -dx) / 2) = -(S * (dy * dx) / 6) := by
      ring
    rw [he]
    have : 0 < S * (dy * dx) / 6 := by positivity
    linarith
  have hA : ∀ f ∈ faces_top g.rows g.cols,
      ∃ v, tri_flux (vertex_at (assembled_mesh cfg g) f.1)
        (vertex_at (assembled_mesh cfg g) f.2.1)
        (vertex_at (assembled_mesh cfg g) f.2.2) = some v ∧ v < 0 := by
    intro f hf
    rw [mem_faces_top] at hf
    obtain ⟨i, hi, j, hj, hf | hf⟩ := hf <;> subst hf <;> dsimp only
    · obtain ⟨z1, hz1, hp1⟩ := hz i j (by omega) (by omega)
      obtain ⟨z2, hz2, hp2⟩ := hz i (j + 1) (by omega) (by omega)
      obtain ⟨z3, hz3, hp3⟩ := hz (i + 1) j (by omega) (by omega)
      rw [vertex_at_top cfg g i j (by omega) (by omega),
        vertex_at_top cfg g i (j + 1) (by omega) (by omega),
        vertex_at_top cfg g (i + 1) j (by omega) (by omega),
        hz1, hz2, hz3, tri_flux_eval]
      refine ⟨_, rfl, ?_⟩
      rw [xcoord_succ_sub cfg g.cols j hc, ycoord_succ_sub cfg g.rows i hr]
      exact key1 _ _ _ _ _ (by linarith) hdx hdy
    · obtain ⟨z1, hz1, hp1⟩ := hz i (j + 1) (by omega) (by omega)
      obtain ⟨z2, hz2, hp2⟩ := hz (i + 1) (j + 1) (by omega) (by omega)
      obtain ⟨z3, hz3, hp3⟩ := hz (i + 1) j (by omega) (by omega)
      rw [vertex_at_top cfg g i (j + 1) (by omega) (by omega),
        vertex_at_top cfg g (i + 1) (j + 1) (by omega) (by omega),
        vertex_at_top cfg g (i + 1) j (by omega) (by omega),
        hz1, hz2, hz3, tri_flux_eval]
      refine ⟨_, rfl, ?_⟩
      rw [xcoord_sub_succ cfg g.cols j hc, ycoord_succ_sub cfg g.rows i hr]
      exact key2 _ _ _ _ (by linarith) hdx hdy
  have hB : ∀ f ∈ faces_bottom g.rows g.cols,
      tri_flux (vertex_at (assembled_mesh cfg g) f.1)
        (vertex_at (assembled_mesh cfg g) f.2.1)
        (vertex_at (assembled_mesh cfg g) f.2.2) = some 0 := by
    intro f hf
    rw [faces_bottom] at hf
    obtain ⟨f0, hf0, rfl⟩ := List.mem_map.mp hf
    rw [mem_faces_top] at hf0
    obtain ⟨i, hi, j, hj, hf0 | hf0⟩ := hf0 <;> subst hf0 <;> dsimp only
    · rw [vertex_at_bot cfg g i j (by omega) (by omega),
        vertex_at_bot cfg g (i + 1) j (by omega) (by omega),
        vertex_at_bot cfg g i (j + 1) (by omega) (by omega), tri_flux_eval]
      exact congrArg some (by ring)
    · rw [vertex_at_bot cfg g i (j + 1) (by omega) (by omega),
        vertex_at_bot cfg g (i + 1) j (by omega) (by omega),
        vertex_at_bot cfg g (i + 1) (j + 1) (by omega) (by omega), tri_flux_eval]
      exact congrArg some (by ring)
  have hC : ∀ f ∈ faces_sides g.rows g.cols,
      tri_flux (vertex_at (assembled_mesh cfg g) f.1)
        (vertex_at (assembled_mesh cfg g) f.2.1)
        (vertex_at (assembled_mesh cfg g) f.2.2) = some 0 := by
    intro f hf
    rw [faces_sides] at hf
    rcases List.mem_append.mp hf with hf' | hfr
    · rcases List.mem_append.mp hf' with hf'' | hfl
      · rcases List.mem_append.mp hf'' with hff | hfb
        · rw [mem_faces_front] at hff
          obtain ⟨j, hj, hff | hff⟩ := hff <;> subst hff <;> dsimp only
          · obtain ⟨z1, hz1, _⟩ := hz 0 j (by omega) (by omega)
            obtain ⟨z2, hz2, _⟩ := hz 0 (j + 1) (by omega) (by omega)
            have v1 := vertex_at_top cfg g 0 j (by omega) (by omega)
            have v2 := vertex_at_bot cfg g 0 j (by omega) (by omega)
            have v3 := vertex_at_top cfg g 0 (j + 1) (by omega) (by omega)
            rw [show 0 * g.cols + j = j from by ring] at v1 v2
            rw [show 0 * g.cols + (j + 1) = j + 1 from by ring] at v3
            rw [v1, v2, v3, hz1, hz2, tri_flux_eval]
            exact congrArg some (by ring)
          · obtain ⟨z1, hz1, _⟩ := hz 0 (j + 1) (by omega) (by omega)
            have v1 := vertex_at_top cfg g 0 (j + 1) (by omega) (by omega)
            have v2 := vertex_at_bot cfg g 0 j (by omega) (by omega)
            have v3 := vertex_at_bot cfg g 0 (j + 1) (by omega) (by omega)
            rw [show 0 * g.cols + (j + 1) = j + 1 from by ring] at v1 v3
            rw [show 0 * g.cols + j = j from by ring] at v2
            rw [v1, v2, v3, hz1, tri_flux_eval]
            exact congrArg some (by ring)
        · rw [mem_faces_back] at hfb
          obtain ⟨j, hj, hfb | hfb⟩ := hfb <;> subst hfb <;> dsimp only
          · obtain ⟨z1, hz1, _⟩ := hz (g.rows - 1) j (by omega) (by omega)
            obtain ⟨z2, hz2, _⟩ := hz (g.rows - 1) (j + 1) (by omega) (by omega)
            rw [vertex_at_top cfg g (g.rows - 1) j (by omega) (by omega),
              vertex_at_top cfg g (g.rows - 1) (j + 1) (by omega) (by omega),
              vertex_at_bot cfg g (g.rows - 1) j (by omega) (by omega),
              hz1, hz2, tri_flux_eval]
            exact congrArg some (by ring)
          · obtain ⟨z1, hz1, _⟩ := hz (g.rows - 1) (j + 1) (by omega) (by omega)
            rw [vertex_at_top cfg g (g.rows - 1) (j + 1) (by omega) (by omega),
              vertex_at_bot cfg g (g.rows - 1) (j + 1) (by omega) (by omega),
              vertex_at_bot cfg g (g.rows - 1) j (by omega) (by omega),
              hz1, tri_flux_eval]
            exact congrArg some (by ring)
      · rw [mem_faces_left] at hfl
        obtain ⟨i, hi, hfl | hfl⟩ := hfl <;> subst hfl <;> dsimp only
        · obtain ⟨z1, hz1, _⟩ := hz i 0 (by omega) (by omega)
          obtain ⟨z2, hz2, _⟩ := hz (i + 1) 0 (by omega) (by omega)
          have v1 := vertex_at_top cfg g i 0 (by omega) (by omega)
          have v2 := vertex_at_top cfg g (i + 1) 0 (by omega) (by omega)
          have v3 := vertex_at_bot cfg g i 0 (by omega) (by omega)
          rw [show i * g.cols + 0 = i * g.cols from by ring] at v1 v3
          rw [show (i + 1) * g.cols + 0 = (i + 1) * g.cols from by ring] at v2
          rw [v1, v2, v3, hz1, hz2, tri_flux_eval]
          exact congrArg some (by ring)
        · obtain ⟨z1, hz1, _⟩ := hz (i + 1) 0 (by omega) (by omega)
          have v1 := vertex_at_top cfg g (i + 1) 0 (by omega) (by omega)
          have v2 := vertex_at_bot cfg g (i + 1) 0 (by omega) (by omega)
          have v3 := vertex_at_bot cfg g i 0 (by omega) (by omega)
          rw [show (i + 1) * g.cols + 0 = (i + 1) * g.cols from by ring] at v1 v2
          rw [show i * g.cols + 0 = i * g.cols from by ring] at v3
          rw [v1, v2, v3, hz1, tri_flux_eval]
          exact congrArg some (by ring)
    · rw [mem_faces_right] at hfr
      obtain ⟨i, hi, hfr | hfr⟩ := hfr <;> subst hfr <;> dsimp only
      · obtain ⟨z1, hz1, _⟩ := hz i (g.cols - 1) (by omega) (by omega)
        obtain ⟨z2, hz2, _⟩ := hz (i + 1) (g.cols - 1) (by omega) (by omega)
        rw [vertex_at_top cfg g i (g.cols - 1) (by omega) (by omega),
          vertex_at_bot cfg g i (g.cols - 1) (by omega) (by omega),
          vertex_at_top cfg g (i + 1) (g.cols - 1) (by omega) (by omega),
          hz1, hz2, tri_flux_eval]
        exact congrArg some (by ring)
      · obtain ⟨z1, hz1, _⟩ := hz (i + 1) (g.cols - 1) (by omega) (by omega)
        rw [vertex_at_top cfg g (i + 1) (g.cols - 1) (by omega) (by omega),
          vertex_at_bot cfg g i (g.cols - 1) (by omega) (by omega),
          vertex_at_bot cfg g (i + 1) (g.cols - 1) (by omega) (by omega),
          hz1, tri_flux_eval]
        exact congrArg some (by ring)
  have hall : ∀ f ∈ faces_top g.rows g.cols ++ faces_bottom g.rows g.cols ++
      faces_sides g.rows g.cols,
      tri_flux (vertex_at (assembled_mesh cfg g) f.1)
        (vertex_at (assembled_mesh cfg g) f.2.1)
        (vertex_at (assembled_mesh cfg g) f.2.2) =
      some ((tri_flux (vertex_at (assembled_mesh cfg g) f.1)
        (vertex_at (assembled_mesh cfg g) f.2.1)
        (vertex_at (assembled_mesh cfg g) f.2.2)).getD 0) := by
    intro f hf
    rcases List.mem_append.mp hf with hf' | hfs
    · rcases List.mem_append.mp hf' with hft | hfb
      · obtain ⟨v, hv, _⟩ := hA f hft
        refine opt_eq_some_getD _ ?_
        rw [hv]; rfl
      · refine opt_eq_some_getD _ ?_
        rw [hB f hfb]; rfl
    · refine opt_eq_some_getD _ ?_
      rw [hC f hfs]; rfl
  have hsv : signed_volume (assembled_mesh cfg g) =
      some (((faces_top g.rows g.cols ++ faces_bottom g.rows g.cols ++
        faces_sides g.rows g.cols).map fun f =>
          (tri_flux (vertex_at (assembled_mesh cfg g) f.1)
            (vertex_at (assembled_mesh cfg g) f.2.1)
            (vertex_at (assembled_mesh cfg g) f.2.2)).getD 0).sum) := by
    rw [signed_volume]
    exact fsum_map_eq _ _ hall
  refine ⟨_, hsv, ?_⟩
  rw [List.map_append, List.map_append, List.sum_append, List.sum_append]
  have hsum_b : ((faces_bottom g.rows g.cols).map fun f =>
      (tri_flux (vertex_at (assembled_mesh cfg g) f.1)
        (vertex_at (assembled_mesh cfg g) f.2.1)
        (vertex_at (assembled_mesh cfg g) f.2.2)).getD 0).sum = 0 := by
    refine List.sum_eq_zero ?_
    intro x hx
    obtain ⟨f, hf, rfl⟩ := List.mem_map.mp hx
    rw [hB f hf]
    rfl
  have hsum_s : ((faces_sides g.rows g.cols).map fun f =>
      (tri_flux (vertex_at (assembled_mesh cfg g) f.1)
        (vertex_at (assembled_mesh cfg g) f.2.1)
        (vertex_at (assembled_mesh cfg g) f.2.2)).getD 0).sum = 0 := by
    refine List.sum_eq_zero ?_
    intro x hx
    obtain ⟨f, hf, rfl⟩ := List.mem_map.mp hx
    rw [hC f hf]
    rfl
  have hsum_t : ((faces_top g.rows g.cols).map fun f =>
      (tri_flux (vertex_at (assembled_mesh cfg g) f.1)
        (vertex_at (assembled_mesh cfg g) f.2.1)
        (vertex_at (assembled_mesh cfg g) f.2.2)).getD 0).sum < 0 := by
    refine sum_lt_zero _ ?_ ?_
    · intro hnil
      have hlen := congrArg List.length hnil
      rw [List.length_map, length_faces_top, List.length_nil] at hlen
      have h1 : 1 ≤ g.rows - 1 := by omega
      have h2 : 1 ≤ g.cols - 1 := by omega
      nlinarith
    · intro x hx
      obtain ⟨f, hf, rfl⟩ := List.mem_map.mp hx
      obtain ⟨v, hv, hvneg⟩ := hA f hf
      rw [hv]
      exact hvneg
  linarith

/-- Closed evaluation of the determinant contribution on finite vertices. -/
theorem tri_det_eval (x1 y1 x2 y2 x3 y3 z1 z2 z3 : ℚ) :
    tri_det (x1, y1, some z1) (x2, y2, some z2) (x3, y3, some z3) =
      some ((x1 * (y2 * z3 - z2 * y3) - y1 * (x2 * z3 - z2 * x3) +
        z1 * (x2 * y3 - y2 * x3)) / 6) := by
  rw [tri_det]
  dsimp only
  simp only [fadd, fsub, fdiv, fmul]
  rw [if_neg (by norm_num : ¬(6 : ℚ) = 0)]

/-- C1 counterexample: on the concrete 2×2 non-flat grid `[[0,1],[0,1]]`
with the §8 configuration, the assembled triangle list has total signed
volume -200000 mm³ — negative, not positive — under both the
divergence-flux formula and the determinant formula (they agree because the
surface is closed).  The positive-volume orientation only appears after the
external repair pass (`mesh.process()` / `mesh.fix_normals()`). -/
theorem C1_counterexample :
    signed_volume (assembled_mesh cfg_s8 grid_cx) = some (-200000) ∧
    signed_volume_det (assembled_mesh cfg_s8 grid_cx) = some (-200000) ∧
    ¬(0 < (-200000 : ℚ)) := by
  have hmin : nanmin grid_cx = some 0 := by decide
  have hmax : nanmax grid_cx = some 1 := by decide
  have hz0 : ∀ i, top_z cfg_s8 grid_cx i 0 = some 5 := by
    intro i
    have h := top_z_eval cfg_s8 grid_cx i 0 0 0 1 rfl hmin hmax (by norm_num)
    rw [h]
    norm_num [max_relief, cfg_s8]
  have hz1 : ∀ i, top_z cfg_s8 grid_cx i 1 = some 35 := by
    intro i
    have h := top_z_eval cfg_s8 grid_cx i 1 1 0 1 rfl hmin hmax (by norm_num)
    rw [h]
    norm_num [max_relief, cfg_s8]
  have hx0 : xcoord cfg_s8 2 0 = 0 := by norm_num [xcoord, linspace_val, cfg_s8]
  have hx1 : xcoord cfg_s8 2 1 = 100 := by norm_num [xcoord, linspace_val, cfg_s8]
  have hy0 : ycoord cfg_s8 2 0 = 100 := by norm_num [ycoord, linspace_val, cfg_s8]
  have hy1 : ycoord cfg_s8 2 1 = 0 := by norm_num [ycoord, linspace_val, cfg_s8]
  have v0 : vertex_at (assembled_mesh cfg_s8 grid_cx) 0 = (0, 100, some 5) := by
    have h := vertex_at_top cfg_s8 grid_cx 0 0 (by decide) (by decide)
    simp only [show (0 : ℕ) * grid_cx.cols + 0 = 0 from rfl] at h
    rw [h, show grid_cx.cols = 2 from rfl, show grid_cx.rows = 2 from rfl, hx0, hy0, hz0]
  have v1 : vertex_at (assembled_mesh cfg_s8 grid_cx) 1 = (100, 100, some 35) := by
    have h := vertex_at_top cfg_s8 grid_cx 0 1 (by decide) (by decide)
    simp only [show (0 : ℕ) * grid_cx.cols + 1 = 1 from rfl] at h
    rw [h, show grid_cx.cols = 2 from rfl, show grid_cx.rows = 2 from rfl, hx1, hy0, hz1]
  have v2 : vertex_at (assembled_mesh cfg_s8 grid_cx) 2 = (0, 0, some 5) := by
    have h := vertex_at_top cfg_s8 grid_cx 1 0 (by decide) (by decide)
    simp only [show (1 : ℕ) * grid_cx.cols + 0 = 2 from rfl] at h
    rw [h, show grid_cx.cols = 2 from rfl, show grid_cx.rows = 2 from rfl, hx0, hy1, hz0]
  have v3 : vertex_at (assembled_mesh cfg_s8 grid_cx) 3 = (100, 0, some 35) := by
    have h := vertex_at_top cfg_s8 grid_cx 1 1 (by decide) (by decide)
    simp only [show (1 : ℕ) * grid_cx.cols + 1 = 3 from rfl] at h
    rw [h, show grid_cx.cols = 2 from rfl, show grid_cx.rows = 2 from rfl, hx1, hy1, hz1]
  have v4 : vertex_at (assembled_mesh cfg_s8 grid_cx) 4 = (0, 100, some 0) := by
    have h := vertex_at_bot cfg_s8 grid_cx 0 0 (by decide) (by decide)
    simp only [show (0 : ℕ) * grid_cx.cols + 0 + grid_cx.rows * grid_cx.cols = 4 from rfl] at h
    rw [h, show grid_cx.cols = 2 from rfl, show grid_cx.rows = 2 from rfl, hx0, hy0]
  have v5 : vertex_at (assembled_mesh cfg_s8 grid_cx) 5 = (100, 100, some 0) := by
    have h := vertex_at_bot cfg_s8 grid_cx 0 1 (by decide) (by decide)
    simp only [show (0 : ℕ) * grid_cx.cols + 1 + grid_cx.rows * grid_cx.cols = 5 from rfl] at h
    rw [h, show grid_cx.cols = 2 from rfl, show grid_cx.rows = 2 from rfl, hx1, hy0]
  have v6 : vertex_at (assembled_mesh cfg_s8 grid_cx) 6 = (0, 0, some 0) := by
    have h := vertex_at_bot cfg_s8 grid_cx 1 0 (by decide) (by decide)
    simp only [show (1 : ℕ) * grid_cx.cols + 0 + grid_cx.rows * grid_cx.cols = 6 from rfl] at h
    rw [h, show grid_cx.cols = 2 from rfl, show grid_cx.rows = 2 from rfl, hx0, hy1]
  have v7 : vertex_at (assembled_mesh cfg_s8 grid_cx) 7 = (100, 0, some 0) := by
    have h := vertex_at_bot cfg_s8 grid_cx 1 1 (by decide) (by decide)
    simp only [show (1 : ℕ) * grid_cx.cols + 1 + grid_cx.rows * grid_cx.cols = 7 from rfl] at h
    rw [h, show grid_cx.cols = 2 from rfl, show grid_cx.rows = 2 from rfl, hx1, hy1]
  have hfaces : (assembled_mesh cfg_s8 grid_cx).all_faces =
      [(0, 1, 2), (1, 3, 2), (4, 6, 5), (5, 6, 7),
       (0, 4, 1), (1, 4, 5), (2, 3, 6), (3, 7, 6),
       (0, 2, 4), (2, 6, 4), (1, 5, 3), (3, 5, 7)] := by decide
  refine ⟨?_, ?_, by norm_num⟩
  · rw [signed_volume, hfaces]
    simp only [List.map_cons, List.map_nil]
    rw [v0, v1, v2, v3, v4, v5, v6, v7]
    rw [tri_flux_eval, tri_flux_eval, tri_flux_eval, tri_flux_eval, tri_flux_eval,
      tri_flux_eval, tri_flux_eval, tri_flux_eval, tri_flux_eval, tri_flux_eval,
      tri_flux_eval, tri_flux_eval]
    simp only [fsum, List.foldr_cons, List.foldr_nil, fadd]
    norm_num
  · rw [signed_volume_det, hfaces]
    simp only [List.map_cons, List.map_nil]
    rw [v0, v1, v2, v3, v4, v5, v6, v7]
    rw [tri_det_eval, tri_det_eval, tri_det_eval, tri_det_eval, tri_det_eval,
      tri_det_eval, tri_det_eval, tri_det_eval, tri_det_eval, tri_det_eval,
      tri_det_eval, tri_det_eval]
    simp only [fsum, List.foldr_cons, List.foldr_nil, fadd]
    norm_num

/-! Combinatorics of the assembled triangle list: every face list of the
source is the image of its coordinate-level counterpart under the flat
vertex encoding `cenc`. -/

/-- The top triangulation is the encoded coordinate triangulation. -/
theorem faces_top_enc (r c : ℕ) :
    faces_top r c = (cfaces_top r c).map (cface_enc r c) := by
  rw [faces_top, cfaces_top, List.map_flatMap]
  refine List.flatMap_congr fun i _ => ?_
  rw [List.map_flatMap]
  refine List.flatMap_congr fun j _ => ?_
  simp only [List.map_cons, List.map_nil, cface_enc, cenc, ctop, cbot, cond_false,
    cond_true, List.cons.injEq, Prod.mk.injEq, and_true]
  omega

/-- The bottom triangulation is the encoded coordinate triangulation. -/
theorem faces_bottom_enc (r c : ℕ) :
    faces_bottom r c = (cfaces_bottom r c).map (cface_enc r c) := by
  rw [faces_bottom, faces_top_enc, cfaces_top, cfaces_bottom, List.map_map,
    List.map_flatMap, List.map_flatMap]
  refine List.flatMap_congr fun i _ => ?_
  rw [List.map_flatMap, List.map_flatMap]
  refine List.flatMap_congr fun j _ => ?_
  simp only [List.map_cons, List.map_nil, Function.comp_apply, cface_enc, cenc, ctop,
    cbot, cond_false, cond_true, List.cons.injEq, Prod.mk.injEq, and_true]
  omega

/-- The row-0 wall strip is the encoded coordinate strip. -/
theorem faces_front_enc (r c : ℕ) :
    faces_front r c = (cfaces_front c).map (cface_enc r c) := by
  rw [faces_front, cfaces_front, List.map_flatMap]
  refine List.flatMap_congr fun j _ => ?_
  simp only [List.map_cons, List.map_nil, cface_enc, cenc, ctop, cbot, cond_false,
    cond_true, List.cons.injEq, Prod.mk.injEq, and_true]
  omega

/-- The last-row wall strip is the encoded coordinate strip. -/
theorem faces_back_enc (r c : ℕ) :
    faces_back r c = (cfaces_back r c).map (cface_enc r c) := by
  rw [faces_back, cfaces_back, List.map_flatMap]
  refine List.flatMap_congr fun j _ => ?_
  simp only [List.map_cons, List.map_nil, cface_enc, cenc, ctop, cbot, cond_false,
    cond_true, List.cons.injEq, Prod.mk.injEq, and_true]
  omega

/-- The column-0 wall strip is the encoded coordinate strip. -/
theorem faces_left_enc (r c : ℕ) :
    faces_left r c = (cfaces_left r).map (cface_enc r c) := by
  rw [faces_left, cfaces_left, List.map_flatMap]
  refine List.flatMap_congr fun i _ => ?_
  simp only [List.map_cons, List.map_nil, cface_enc, cenc, ctop, cbot, cond_false,
    cond_true, List.cons.injEq, Prod.mk.injEq, and_true]
  omega

/-- The last-column wall strip is the encoded coordinate strip. -/
theorem faces_right_enc (r c : ℕ) :
    faces_right r c = (cfaces_right r c).map (cface_enc r c) := by
  rw [faces_right, cfaces_right, List.map_flatMap]
  refine List.flatMap_congr fun i _ => ?_
  simp only [List.map_cons, List.map_nil, cface_enc, cenc, ctop, cbot, cond_false,
    cond_true, List.cons.injEq, Prod.mk.injEq, and_true]
  omega

/-- The full assembled face list is the encoded coordinate face list. -/
theorem all_faces_enc (r c : ℕ) :
    faces_top r c ++ faces_bottom r c ++ faces_sides r c =
      (cfaces_all r c).map (cface_enc r c) := by
  rw [cfaces_all, faces_sides, List.map_append, List.map_append, List.map_append,
    List.map_append, List.map_append, faces_top_enc, faces_bottom_enc,
    faces_front_enc, faces_back_enc, faces_left_enc, faces_right_enc]

/-- The flat index of a grid point determines row and column. -/
theorem rowcol_inj (c i j i' j' : ℕ) (hj : j < c) (hj' : j' < c)
    (h : i * c + j = i' * c + j') : i = i' ∧ j = j' := by
  have hc : 0 < c := by omega
  have h1 : (i * c + j) / c = i := by
    rw [Nat.mul_comm, Nat.mul_add_div hc, Nat.div_eq_of_lt hj, Nat.add_zero]
  have h2 : (i' * c + j') / c = i' := by
    rw [Nat.mul_comm, Nat.mul_add_div hc, Nat.div_eq_of_lt hj', Nat.add_zero]
  rw [h] at h1
  have hii : i = i' := h1.symm.trans h2
  subst hii
  omega

/-- The flat vertex encoding is injective on grid-point coordinates. -/
theorem cenc_inj (r c : ℕ) (u v : CV) (hu : cvalid r c u) (hv : cvalid r c v)
    (h : cenc r c u = cenc r c v) : u = v := by
  obtain ⟨bu, iu, ju⟩ := u
  obtain ⟨bv, iv, jv⟩ := v
  simp only [cvalid] at hu hv
  simp only [cenc] at h
  have hlt1 : iu * c + ju < r * c := rowcol_lt r c iu ju hu.1 hu.2
  have hlt2 : iv * c + jv < r * c := rowcol_lt r c iv jv hv.1 hv.2
  cases bu <;> cases bv <;> simp only [cond_false, cond_true] at h
  · obtain ⟨h1, h2⟩ := rowcol_inj c iu ju iv jv hu.2 hv.2 (by omega)
    rw [h1, h2]
  · exact absurd h (by omega)
  · exact absurd h (by omega)
  · obtain ⟨h1, h2⟩ := rowcol_inj c iu ju iv jv hu.2 hv.2 (by omega)
    rw [h1, h2]

/-- Membership characterization of the coordinate top triangulation. -/
theorem mem_cfaces_top (r c : ℕ) (f : CV × CV × CV) :
    f ∈ cfaces_top r c ↔ ∃ i, i < r - 1 ∧ ∃ j, j < c - 1 ∧
      (f = (ctop i j, ctop i (j + 1), ctop (i + 1) j) ∨
       f = (ctop i (j + 1), ctop (i + 1) (j + 1), ctop (i + 1) j)) := by
  simp [cfaces_top, List.mem_flatMap, List.mem_range]

/-- Membership characterization of the coordinate bottom triangulation. -/
theorem mem_cfaces_bottom (r c : ℕ) (f : CV × CV × CV) :
    f ∈ cfaces_bottom r c ↔ ∃ i, i < r - 1 ∧ ∃ j, j < c - 1 ∧
      (f = (cbot i j, cbot (i + 1) j, cbot i (j + 1)) ∨
       f = (cbot i (j + 1), cbot (i + 1) j, cbot (i + 1) (j + 1))) := by
  simp [cfaces_bottom, List.mem_flatMap, List.mem_range]

/-- Membership characterization of the coordinate row-0 strip. -/
theorem mem_cfaces_front (c : ℕ) (f : CV × CV × CV) :
    f ∈ cfaces_front c ↔ ∃ j, j < c - 1 ∧
      (f = (ctop 0 j, cbot 0 j, ctop 0 (j + 1)) ∨
       f = (ctop 0 (j + 1), cbot 0 j, cbot 0 (j + 1))) := by
  simp [cfaces_front, List.mem_flatMap, List.mem_range]

/-- Membership characterization of the coordinate last-row strip. -/
theorem mem_cfaces_back (r c : ℕ) (f : CV × CV × CV) :
    f ∈ cfaces_back r c ↔ ∃ j, j < c - 1 ∧
      (f = (ctop (r - 1) j, ctop (r - 1) (j + 1), cbot (r - 1) j) ∨
       f = (ctop (r - 1) (j + 1), cbot (r - 1) (j + 1), cbot (r - 1) j)) := by
  simp [cfaces_back, List.mem_flatMap, List.mem_range]

/-- Membership characterization of the coordinate column-0 strip. -/
theorem mem_cfaces_left (r : ℕ) (f : CV × CV × CV) :
    f ∈ cfaces_left r ↔ ∃ i, i < r - 1 ∧
      (f = (ctop i 0, ctop (i + 1) 0, cbot i 0) ∨
       f = (ctop (i + 1) 0, cbot (i + 1) 0, cbot i 0)) := by
  simp [cfaces_left, List.mem_flatMap, List.mem_range]

/-- Membership characterization of the coordinate last-column strip. -/
theorem mem_cfaces_right (r c : ℕ) (f : CV × CV × CV) :
    f ∈ cfaces_right r c ↔ ∃ i, i < r - 1 ∧
      (f = (ctop i (c - 1), cbot i (c - 1), ctop (i + 1) (c - 1)) ∨
       f = (ctop (i + 1) (c - 1), cbot i (c - 1), cbot (i + 1) (c - 1))) := by
  simp [cfaces_right, List.mem_flatMap, List.mem_range]

/-- Every coordinate face of the mesh has in-bounds grid coordinates. -/
theorem cfaces_all_valid (r c : ℕ) (hr : 2 ≤ r) (hc : 2 ≤ c) :
    ∀ f ∈ cfaces_all r c,
      cvalid r c f.1 ∧ cvalid r c f.2.1 ∧ cvalid r c f.2.2 := by
  intro f hf
  rw [cfaces_all] at hf
  rcases List.mem_append.mp hf with hf' | hfw
  · rcases List.mem_append.mp hf' with hft | hfb
    · rw [mem_cfaces_top] at hft
      obtain ⟨i, hi, j, hj, h | h⟩ := hft <;> subst h <;>
        simp only [cvalid, ctop, cbot] <;> omega
    · rw [mem_cfaces_bottom] at hfb
      obtain ⟨i, hi, j, hj, h | h⟩ := hfb <;> subst h <;>
        simp only [cvalid, ctop, cbot] <;> omega
  · rcases List.mem_append.mp hfw with hf'' | hfr
    · rcases List.mem_append.mp hf'' with hf''' | hfl
      · rcases List.mem_append.mp hf''' with hff | hfb
        · rw [mem_cfaces_front] at hff
          obtain ⟨j, hj, h | h⟩ := hff <;> subst h <;>
            simp only [cvalid, ctop, cbot] <;> omega
        · rw [mem_cfaces_back] at hfb
          obtain ⟨j, hj, h | h⟩ := hfb <;> subst h <;>
            simp only [cvalid, ctop, cbot] <;> omega
      · rw [mem_cfaces_left] at hfl
        obtain ⟨i, hi, h | h⟩ := hfl <;> subst h <;>
          simp only [cvalid, ctop, cbot] <;> omega
    · rw [mem_cfaces_right] at hfr
      obtain ⟨i, hi, h | h⟩ := hfr <;> subst h <;>
        simp only [cvalid, ctop, cbot] <;> omega

/-- Bind of a coerced two-element list. -/
theorem pair_bind {α β : Type} (x y : α) (E : α → Multiset β) :
    ((↑[x, y] : Multiset α)).bind E = E x + E y := by
  rw [show ((↑[x, y] : Multiset α)) = x ::ₘ y ::ₘ 0 from rfl]
  rw [Multiset.cons_bind, Multiset.cons_bind, Multiset.zero_bind, add_zero]

/-- Bind of a coerced flat map over a range, as a finite sum. -/
theorem coe_flatMap_bind {α β : Type} (n : ℕ) (f : ℕ → List α) (E : α → Multiset β) :
    (((List.range n).flatMap f : List α) : Multiset α).bind E =
      ∑ i ∈ Finset.range n, ((f i : List α) : Multiset α).bind E := by
  induction n with
  | zero => simp
  | succ m ih =>
      rw [List.range_succ, List.flatMap_append, ← Multiset.coe_add, Multiset.add_bind,
        ih, Finset.sum_range_succ]
      congr 1
      rw [show ((List.flatMap [m] f : List α) : Multiset α) = ((f m : List α) : Multiset α)
        from by simp]

/-- The edge multiset of the assembled mesh, family by family. -/
theorem edge_ms_decomp (r c : ℕ) : edge_ms r c =
    (∑ i ∈ Finset.range (r - 1), ∑ j ∈ Finset.range (c - 1),
      (cedges (ctop i j, ctop i (j + 1), ctop (i + 1) j) +
       cedges (ctop i (j + 1), ctop (i + 1) (j + 1), ctop (i + 1) j))) +
    (∑ i ∈ Finset.range (r - 1), ∑ j ∈ Finset.range (c - 1),
      (cedges (cbot i j, cbot (i + 1) j, cbot i (j + 1)) +
       cedges (cbot i (j + 1), cbot (i + 1) j, cbot (i + 1) (j + 1)))) +
    (∑ j ∈ Finset.range (c - 1),
      (cedges (ctop 0 j, cbot 0 j, ctop 0 (j + 1)) +
       cedges (ctop 0 (j + 1), cbot 0 j, cbot 0 (j + 1)))) +
    (∑ j ∈ Finset.range (c - 1),
      (cedges (ctop (r - 1) j, ctop (r - 1) (j + 1), cbot (r - 1) j) +
       cedges (ctop (r - 1) (j + 1), cbot (r - 1) (j + 1), cbot (r - 1) j))) +
    (∑ i ∈ Finset.range (r - 1),
      (cedges (ctop i 0, ctop (i + 1) 0, cbot i 0) +
       cedges (ctop (i + 1) 0, cbot (i + 1) 0, cbot i 0))) +
    (∑ i ∈ Finset.range (r - 1),
      (cedges (ctop i (c - 1), cbot i (c - 1), ctop (i + 1) (c - 1)) +
       cedges (ctop (i + 1) (c - 1), cbot i (c - 1), cbot (i + 1) (c - 1)))) := by
  rw [edge_ms, cfaces_all, cfaces_top, cfaces_bottom, cfaces_front, cfaces_back,
    cfaces_left, cfaces_right]
  simp only [← Multiset.coe_add, Multiset.add_bind, coe_flatMap_bind, pair_bind]
  abel

/-- Edge classes of the first top triangle of a cell. -/
theorem cedges_T1 (i j : ℕ) :
    cedges (ctop i j, ctop i (j + 1), ctop (i + 1) j) =
      ({hseg false i j} : Multiset (Sym2 CV)) + {dseg false i j} + {vseg false i j} := rfl

/-- Edge classes of the second top triangle of a cell. -/
theorem cedges_T2 (i j : ℕ) :
    cedges (ctop i (j + 1), ctop (i + 1) (j + 1), ctop (i + 1) j) =
      ({vseg false i (j + 1)} : Multiset (Sym2 CV)) + {hseg false (i + 1) j} +
        {dseg false i j} := by
  rw [show cedges (ctop i (j + 1), ctop (i + 1) (j + 1), ctop (i + 1) j) =
      ({s(ctop i (j + 1), ctop (i + 1) (j + 1))} : Multiset (Sym2 CV)) +
      {s(ctop (i + 1) (j + 1), ctop (i + 1) j)} + {s(ctop i (j + 1), ctop (i + 1) j)}
      from rfl]
  rw [show s(ctop (i + 1) (j + 1), ctop (i + 1) j) = hseg false (i + 1) j from
    Sym2.eq_swap]
  rfl

/-- Edge classes of the first bottom triangle of a cell. -/
theorem cedges_B1 (i j : ℕ) :
    cedges (cbot i j, cbot (i + 1) j, cbot i (j + 1)) =
      ({vseg true i j} : Multiset (Sym2 CV)) + {dseg true i j} + {hseg true i j} := by
  rw [show cedges (cbot i j, cbot (i + 1) j, cbot i (j + 1)) =
      ({s(cbot i j, cbot (i + 1) j)} : Multiset (Sym2 CV)) +
      {s(cbot (i + 1) j, cbot i (j + 1))} + {s(cbot i j, cbot i (j + 1))} from rfl]
  rw [show s(cbot (i + 1) j, cbot i (j + 1)) = dseg true i j from Sym2.eq_swap]
  rfl

/-- Edge classes of the second bottom triangle of a cell. -/
theorem cedges_B2 (i j : ℕ) :
    cedges (cbot i (j + 1), cbot (i + 1) j, cbot (i + 1) (j + 1)) =
      ({dseg true i j} : Multiset (Sym2 CV)) + {hseg true (i + 1) j} +
        {vseg true i (j + 1)} := rfl

/-- Edge classes of the first row-0 wall triangle. -/
theorem cedges_F1 (j : ℕ) :
    cedges (ctop 0 j, cbot 0 j, ctop 0 (j + 1)) =
      ({wseg 0 j} : Multiset (Sym2 CV)) + {fdiag j} + {hseg false 0 j} := rfl

/-- Edge classes of the second row-0 wall triangle. -/
theorem cedges_F2 (j : ℕ) :
    cedges (ctop 0 (j + 1), cbot 0 j, cbot 0 (j + 1)) =
      ({fdiag j} : Multiset (Sym2 CV)) + {hseg true 0 j} + {wseg 0 (j + 1)} := by
  rw [show cedges (ctop 0 (j + 1), cbot 0 j, cbot 0 (j + 1)) =
      ({s(ctop 0 (j + 1), cbot 0 j)} : Multiset (Sym2 CV)) +
      {s(cbot 0 j, cbot 0 (j + 1))} + {s(ctop 0 (j + 1), cbot 0 (j + 1))} from rfl]
  rw [show s(ctop 0 (j + 1), cbot 0 j) = fdiag j from Sym2.eq_swap]
  rfl

/-- Edge classes of the first last-row wall triangle. -/
theorem cedges_K1 (r j : ℕ) :
    cedges (ctop (r - 1) j, ctop (r - 1) (j + 1), cbot (r - 1) j) =
      ({hseg false (r - 1) j} : Multiset (Sym2 CV)) + {kdiag r j} + {wseg (r - 1) j} := rfl

/-- Edge classes of the second last-row wall triangle. -/
theorem cedges_K2 (r j : ℕ) :
    cedges (ctop (r - 1) (j + 1), cbot (r - 1) (j + 1), cbot (r - 1) j) =
      ({wseg (r - 1) (j + 1)} : Multiset (Sym2 CV)) + {hseg true (r - 1) j} +
        {kdiag r j} := by
  rw [show cedges (ctop (r - 1) (j + 1), cbot (r - 1) (j + 1), cbot (r - 1) j) =
      ({s(ctop (r - 1) (j + 1), cbot (r - 1) (j + 1))} : Multiset (Sym2 CV)) +
      {s(cbot (r - 1) (j + 1), cbot (r - 1) j)} +
      {s(ctop (r - 1) (j + 1), cbot (r - 1) j)} from rfl]
  rw [show s(cbot (r - 1) (j + 1), cbot (r - 1) j) = hseg true (r - 1) j from
    Sym2.eq_swap]
  rfl

/-- Edge classes of the first column-0 wall triangle. -/
theorem cedges_L1 (i : ℕ) :
    cedges (ctop i 0, ctop (i + 1) 0, cbot i 0) =
      ({vseg false i 0} : Multiset (Sym2 CV)) + {ldiag i} + {wseg i 0} := rfl

/-- Edge classes of the second column-0 wall triangle. -/
theorem cedges_L2 (i : ℕ) :
    cedges (ctop (i + 1) 0, cbot (i + 1) 0, cbot i 0) =
      ({wseg (i + 1) 0} : Multiset (Sym2 CV)) + {vseg true i 0} + {ldiag i} := by
  rw [show cedges (ctop (i + 1) 0, cbot (i + 1) 0, cbot i 0) =
      ({s(ctop (i + 1) 0, cbot (i + 1) 0)} : Multiset (Sym2 CV)) +
      {s(cbot (i + 1) 0, cbot i 0)} + {s(ctop (i + 1) 0, cbot i 0)} from rfl]
  rw [show s(cbot (i + 1) 0, cbot i 0) = vseg true i 0 from Sym2.eq_swap]
  rfl

/-- Edge classes of the first last-column wall triangle. -/
theorem cedges_R1 (c i : ℕ) :
    cedges (ctop i (c - 1), cbot i (c - 1), ctop (i + 1) (c - 1)) =
      ({wseg i (c - 1)} : Multiset (Sym2 CV)) + {rdiag c i} + {vseg false i (c - 1)} := by
  rw [show cedges (ctop i (c - 1), cbot i (c - 1), ctop (i + 1) (c - 1)) =
      ({s(ctop i (c - 1), cbot i (c - 1))} : Multiset (Sym2 CV)) +
      {s(cbot i (c - 1), ctop (i + 1) (c - 1))} +
      {s(ctop i (c - 1), ctop (i + 1) (c - 1))} from rfl]
  rw [show s(cbot i (c - 1), ctop (i + 1) (c - 1)) = rdiag c i from Sym2.eq_swap]
  rfl

/-- Edge classes of the second last-column wall triangle. -/
theorem cedges_R2 (c i : ℕ) :
    cedges (ctop (i + 1) (c - 1), cbot i (c - 1), cbot (i + 1) (c - 1)) =
      ({rdiag c i} : Multiset (Sym2 CV)) + {vseg true i (c - 1)} +
        {wseg (i + 1) (c - 1)} := rfl

/-- Strip cover: summing a family over a strip of length n in both the
lower and shifted position, plus the two end elements, counts everything
in the closed strip exactly twice. -/
theorem strip_cover {M : Type} [AddCommMonoid M] (f : ℕ → M) (n : ℕ) :
    (∑ i ∈ Finset.range n, f i) + (∑ i ∈ Finset.range n, f (i + 1)) + f 0 + f n =
      2 • ∑ i ∈ Finset.range (n + 1), f i := by
  rw [two_nsmul]
  nth_rewrite 1 [Finset.sum_range_succ]
  rw [Finset.sum_range_succ' f n]
  abel

/-- The horizontal edges of one layer are covered exactly twice. -/
theorem class_h (r c : ℕ) (hr : 2 ≤ r) (L : Bool) :
    (∑ i ∈ Finset.range (r - 1), ∑ j ∈ Finset.range (c - 1),
      ({hseg L i j} : Multiset (Sym2 CV))) +
    (∑ i ∈ Finset.range (r - 1), ∑ j ∈ Finset.range (c - 1),
      ({hseg L (i + 1) j} : Multiset (Sym2 CV))) +
    (∑ j ∈ Finset.range (c - 1), ({hseg L 0 j} : Multiset (Sym2 CV))) +
    (∑ j ∈ Finset.range (c - 1), ({hseg L (r - 1) j} : Multiset (Sym2 CV))) =
    2 • ∑ i ∈ Finset.range r, ∑ j ∈ Finset.range (c - 1),
      ({hseg L i j} : Multiset (Sym2 CV)) := by
  have hr1 : r - 1 + 1 = r := by omega
  have key : ∀ j, (∑ i ∈ Finset.range (r - 1), ({hseg L i j} : Multiset (Sym2 CV))) +
      (∑ i ∈ Finset.range (r - 1), ({hseg L (i + 1) j} : Multiset (Sym2 CV))) +
      {hseg L 0 j} + {hseg L (r - 1) j} =
      2 • ∑ i ∈ Finset.range r, ({hseg L i j} : Multiset (Sym2 CV)) := by
    intro j
    have h := strip_cover (fun i => ({hseg L i j} : Multiset (Sym2 CV))) (r - 1)
    rw [hr1] at h
    exact h
  nth_rewrite 1 [Finset.sum_comm]
  nth_rewrite 2 [Finset.sum_comm]
  nth_rewrite 3 [Finset.sum_comm]
  rw [← Finset.sum_add_distrib, ← Finset.sum_add_distrib, ← Finset.sum_add_distrib,
    Finset.smul_sum]
  exact Finset.sum_congr rfl fun j _ => key j

/-- The row-direction edges of one layer are covered exactly twice. -/
theorem class_v (c : ℕ) (hc : 2 ≤ c) (n : ℕ) (L : Bool) :
    (∑ i ∈ Finset.range n, ∑ j ∈ Finset.range (c - 1),
      ({vseg L i j} : Multiset (Sym2 CV))) +
    (∑ i ∈ Finset.range n, ∑ j ∈ Finset.range (c - 1),
      ({vseg L i (j + 1)} : Multiset (Sym2 CV))) +
    (∑ i ∈ Finset.range n, ({vseg L i 0} : Multiset (Sym2 CV))) +
    (∑ i ∈ Finset.range n, ({vseg L i (c - 1)} : Multiset (Sym2 CV))) =
    2 • ∑ i ∈ Finset.range n, ∑ j ∈ Finset.range c,
      ({vseg L i j} : Multiset (Sym2 CV)) := by
  have hc1 : c - 1 + 1 = c := by omega
  have key : ∀ i, (∑ j ∈ Finset.range (c - 1), ({vseg L i j} : Multiset (Sym2 CV))) +
      (∑ j ∈ Finset.range (c - 1), ({vseg L i (j + 1)} : Multiset (Sym2 CV))) +
      {vseg L i 0} + {vseg L i (c - 1)} =
      2 • ∑ j ∈ Finset.range c, ({vseg L i j} : Multiset (Sym2 CV)) := by
    intro i
    have h := strip_cover (fun j => ({vseg L i j} : Multiset (Sym2 CV))) (c - 1)
    rw [hc1] at h
    exact h
  rw [← Finset.sum_add_distrib, ← Finset.sum_add_distrib, ← Finset.sum_add_distrib,
    Finset.smul_sum]
  exact Finset.sum_congr rfl fun i _ => key i

/-- Splitting a boundary column of wall edges into its ends and interior. -/
theorem col_split (r : ℕ) (hr : 2 ≤ r) (b : ℕ) :
    (∑ i ∈ Finset.range (r - 1), ({wseg i b} : Multiset (Sym2 CV))) +
    (∑ i ∈ Finset.range (r - 1), ({wseg (i + 1) b} : Multiset (Sym2 CV))) =
    {wseg 0 b} + {wseg (r - 1) b} +
      2 • ∑ i ∈ Finset.Ico 1 (r - 1), ({wseg i b} : Multiset (Sym2 CV)) := by
  have h1 : (∑ i ∈ Finset.range (r - 1), ({wseg i b} : Multiset (Sym2 CV))) =
      {wseg 0 b} + ∑ i ∈ Finset.Ico 1 (r - 1), ({wseg i b} : Multiset (Sym2 CV)) := by
    rw [Finset.range_eq_Ico]
    exact Finset.sum_eq_sum_Ico_succ_bot (by omega) _
  have h2 : (∑ i ∈ Finset.range (r - 1), ({wseg (i + 1) b} : Multiset (Sym2 CV))) =
      (∑ i ∈ Finset.Ico 1 (r - 1), ({wseg i b} : Multiset (Sym2 CV))) +
        {wseg (r - 1) b} := by
    have e1 : (∑ i ∈ Finset.Ico 1 r, ({wseg i b} : Multiset (Sym2 CV))) =
        ∑ i ∈ Finset.range (r - 1), ({wseg (1 + i) b} : Multiset (Sym2 CV)) :=
      Finset.sum_Ico_eq_sum_range _ 1 r
    have e2 : (∑ i ∈ Finset.range (r - 1), ({wseg (1 + i) b} : Multiset (Sym2 CV))) =
        ∑ i ∈ Finset.range (r - 1), ({wseg (i + 1) b} : Multiset (Sym2 CV)) :=
      Finset.sum_congr rfl fun i _ => by rw [Nat.add_comm]
    have e3 : (∑ i ∈ Finset.Ico 1 r, ({wseg i b} : Multiset (Sym2 CV))) =
        (∑ i ∈ Finset.Ico 1 (r - 1), ({wseg i b} : Multiset (Sym2 CV))) +
          {wseg (r - 1) b} := by
      conv_lhs => rw [show r = r - 1 + 1 from by omega]
      exact Finset.sum_Ico_succ_top (by omega) _
    rw [← e2, ← e1, e3]
  rw [h1, h2, two_nsmul]
  abel

/-- The wall vertical edges are covered exactly twice. -/
theorem class_w (r c : ℕ) (hr : 2 ≤ r) (hc : 2 ≤ c) :
    (∑ j ∈ Finset.range (c - 1), ({wseg 0 j} : Multiset (Sym2 CV))) +
    (∑ j ∈ Finset.range (c - 1), ({wseg 0 (j + 1)} : Multiset (Sym2 CV))) +
    (∑ j ∈ Finset.range (c - 1), ({wseg (r - 1) j} : Multiset (Sym2 CV))) +
    (∑ j ∈ Finset.range (c - 1), ({wseg (r - 1) (j + 1)} : Multiset (Sym2 CV))) +
    (∑ i ∈ Finset.range (r - 1), ({wseg i 0} : Multiset (Sym2 CV))) +
    (∑ i ∈ Finset.range (r - 1), ({wseg (i + 1) 0} : Multiset (Sym2 CV))) +
    (∑ i ∈ Finset.range (r - 1), ({wseg i (c - 1)} : Multiset (Sym2 CV))) +
    (∑ i ∈ Finset.range (r - 1), ({wseg (i + 1) (c - 1)} : Multiset (Sym2 CV))) =
    2 • ((∑ j ∈ Finset.range c, ({wseg 0 j} : Multiset (Sym2 CV))) +
      (∑ j ∈ Finset.range c, ({wseg (r - 1) j} : Multiset (Sym2 CV))) +
      (∑ i ∈ Finset.Ico 1 (r - 1), ({wseg i 0} : Multiset (Sym2 CV))) +
      (∑ i ∈ Finset.Ico 1 (r - 1), ({wseg i (c - 1)} : Multiset (Sym2 CV)))) := by
  have hc1 : c - 1 + 1 = c := by omega
  have hf : (∑ j ∈ Finset.range (c - 1), ({wseg 0 j} : Multiset (Sym2 CV))) +
      (∑ j ∈ Finset.range (c - 1), ({wseg 0 (j + 1)} : Multiset (Sym2 CV))) +
      {wseg 0 0} + {wseg 0 (c - 1)} =
      2 • ∑ j ∈ Finset.range c, ({wseg 0 j} : Multiset (Sym2 CV)) := by
    have h := strip_cover (fun j => ({wseg 0 j} : Multiset (Sym2 CV))) (c - 1)
    rw [hc1] at h
    exact h
  have hk : (∑ j ∈ Finset.range (c - 1), ({wseg (r - 1) j} : Multiset (Sym2 CV))) +
      (∑ j ∈ Finset.range (c - 1), ({wseg (r - 1) (j + 1)} : Multiset (Sym2 CV))) +
      {wseg (r - 1) 0} + {wseg (r - 1) (c - 1)} =
      2 • ∑ j ∈ Finset.range c, ({wseg (r - 1) j} : Multiset (Sym2 CV)) := by
    have h := strip_cover (fun j => ({wseg (r - 1) j} : Multiset (Sym2 CV))) (c - 1)
    rw [hc1] at h
    exact h
  have hl := col_split r hr 0
  have hr2 := col_split r hr (c - 1)
  refine add_right_cancel
    (b := ({wseg 0 0} : Multiset (Sym2 CV)) + {wseg 0 (c - 1)} +
      {wseg (r - 1) 0} + {wseg (r - 1) (c - 1)}) ?_
  calc (∑ j ∈ Finset.range (c - 1), ({wseg 0 j} : Multiset (Sym2 CV))) +
      (∑ j ∈ Finset.range (c - 1), ({wseg 0 (j + 1)} : Multiset (Sym2 CV))) +
      (∑ j ∈ Finset.range (c - 1), ({wseg (r - 1) j} : Multiset (Sym2 CV))) +
      (∑ j ∈ Finset.range (c - 1), ({wseg (r - 1) (j + 1)} : Multiset (Sym2 CV))) +
      (∑ i ∈ Finset.range (r - 1), ({wseg i 0} : Multiset (Sym2 CV))) +
      (∑ i ∈ Finset.range (r - 1), ({wseg (i + 1) 0} : Multiset (Sym2 CV))) +
      (∑ i ∈ Finset.range (r - 1), ({wseg i (c - 1)} : Multiset (Sym2 CV))) +
      (∑ i ∈ Finset.range (r - 1), ({wseg (i + 1) (c - 1)} : Multiset (Sym2 CV))) +
      (({wseg 0 0} : Multiset (Sym2 CV)) + {wseg 0 (c - 1)} +
        {wseg (r - 1) 0} + {wseg (r - 1) (c - 1)})
      = ((∑ j ∈ Finset.range (c - 1), ({wseg 0 j} : Multiset (Sym2 CV))) +
        (∑ j ∈ Finset.range (c - 1), ({wseg 0 (j + 1)} : Multiset (Sym2 CV))) +
        {wseg 0 0} + {wseg 0 (c - 1)}) +
        ((∑ j ∈ Finset.range (c - 1), ({wseg (r - 1) j} : Multiset (Sym2 CV))) +
        (∑ j ∈ Finset.range (c - 1), ({wseg (r - 1) (j + 1)} : Multiset (Sym2 CV))) +
        {wseg (r - 1) 0} + {wseg (r - 1) (c - 1)}) +
        ((∑ i ∈ Finset.range (r - 1), ({wseg i 0} : Multiset (Sym2 CV))) +
        (∑ i ∈ Finset.range (r - 1), ({wseg (i + 1) 0} : Multiset (Sym2 CV)))) +
        ((∑ i ∈ Finset.range (r - 1), ({wseg i (c - 1)} : Multiset (Sym2 CV))) +
        (∑ i ∈ Finset.range (r - 1), ({wseg (i + 1) (c - 1)} : Multiset (Sym2 CV)))) := by
        abel
    _ = (2 • ∑ j ∈ Finset.range c, ({wseg 0 j} : Multiset (Sym2 CV))) +
        (2 • ∑ j ∈ Finset.range c, ({wseg (r - 1) j} : Multiset (Sym2 CV))) +
        ({wseg 0 0} + {wseg (r - 1) 0} +
          2 • ∑ i ∈ Finset.Ico 1 (r - 1), ({wseg i 0} : Multiset (Sym2 CV))) +
        ({wseg 0 (c - 1)} + {wseg (r - 1) (c - 1)} +
          2 • ∑ i ∈ Finset.Ico 1 (r - 1), ({wseg i (c - 1)} : Multiset (Sym2 CV))) := by
        rw [hf, hk, hl, hr2]
    _ = 2 • ((∑ j ∈ Finset.range c, ({wseg 0 j} : Multiset (Sym2 CV))) +
        (∑ j ∈ Finset.range c, ({wseg (r - 1) j} : Multiset (Sym2 CV))) +
        (∑ i ∈ Finset.Ico 1 (r - 1), ({wseg i 0} : Multiset (Sym2 CV))) +
        (∑ i ∈ Finset.Ico 1 (r - 1), ({wseg i (c - 1)} : Multiset (Sym2 CV)))) +
        (({wseg 0 0} : Multiset (Sym2 CV)) + {wseg 0 (c - 1)} +
          {wseg (r - 1) 0} + {wseg (r - 1) (c - 1)}) := by
        abel

/-- The assembled edge multiset is exactly twice the canonical edge set. -/
theorem edge_ms_two_canon (r c : ℕ) (hr : 2 ≤ r) (hc : 2 ≤ c) :
    edge_ms r c = 2 • canon_ms r c := by
  rw [edge_ms_decomp r c]
  simp only [cedges_T1, cedges_T2, cedges_B1, cedges_B2, cedges_F1, cedges_F2,
    cedges_K1, cedges_K2, cedges_L1, cedges_L2, cedges_R1, cedges_R2,
    Finset.sum_add_distrib]
  rw [canon_ms]
  rw [smul_add, smul_add, smul_add, smul_add, smul_add, smul_add, smul_add,
    smul_add, smul_add, smul_add]
  rw [← class_h r c hr false, ← class_h r c hr true, ← class_v c hc (r - 1) false,
    ← class_v c hc (r - 1) true, ← class_w r c hr hc]
  abel

/-- Membership in a finite sum of singleton multisets. -/
theorem mem_sum_singleton {ι M : Type} (s : Finset ι) (g : ι → M) (e : M) :
    e ∈ ∑ i ∈ s, ({g i} : Multiset M) ↔ ∃ i ∈ s, e = g i := by
  rw [Finset.mem_sum]
  constructor
  · rintro ⟨i, hi, he⟩
    exact ⟨i, hi, Multiset.mem_singleton.mp he⟩
  · rintro ⟨i, hi, he⟩
    exact ⟨i, hi, Multiset.mem_singleton.mpr he⟩

/-- A sum of singletons over an injective family has no duplicates. -/
theorem nodup_sum_singleton {ι M : Type} [DecidableEq ι] (s : Finset ι) (g : ι → M)
    (hg : ∀ i ∈ s, ∀ j ∈ s, g i = g j → i = j) :
    (∑ i ∈ s, ({g i} : Multiset M)).Nodup := by
  classical
  revert hg
  refine Finset.induction_on s ?_ ?_
  · intro _
    simp
  · intro a t ha ih hg
    rw [Finset.sum_insert ha, Multiset.nodup_add]
    refine ⟨Multiset.nodup_singleton _,
      ih fun i hi j hj hij =>
        hg i (Finset.mem_insert_of_mem hi) j (Finset.mem_insert_of_mem hj) hij, ?_⟩
    rw [Multiset.disjoint_left]
    intro e he1 he2
    rw [Multiset.mem_singleton] at he1
    rw [mem_sum_singleton] at he2
    obtain ⟨i, hi, he⟩ := he2
    have hai : a = i := hg a (Finset.mem_insert_self a t) i (Finset.mem_insert_of_mem hi)
      (by rw [← he1, he])
    exact ha (hai ▸ hi)

/-- Two sums of singletons over families with disjoint ranges are disjoint. -/
theorem disjoint_sum_singleton {ι κ M : Type} (s : Finset ι) (t : Finset κ)
    (g : ι → M) (k : κ → M) (h : ∀ i ∈ s, ∀ j ∈ t, g i ≠ k j) :
    Disjoint (∑ i ∈ s, ({g i} : Multiset M)) (∑ j ∈ t, ({k j} : Multiset M)) := by
  rw [Multiset.disjoint_left]
  intro e he1 he2
  rw [mem_sum_singleton] at he1 he2
  obtain ⟨i, hi, he1⟩ := he1
  obtain ⟨j, hj, he2⟩ := he2
  exact h i hi j hj (by rw [← he1, ← he2])

/-- The canonical edge family lists every edge exactly once: the fourteen
index families are individually injective and pairwise disjoint. -/
theorem canon_nodup (r c : ℕ) (hr : 2 ≤ r) (hc : 2 ≤ c) : (canon_ms r c).Nodup := by
  rw [canon_ms]
  simp only [← Finset.sum_product']
  simp only [Multiset.nodup_add, Multiset.disjoint_add_left, Multiset.disjoint_add_right]
  repeat' apply And.intro
  all_goals
    first
    | (refine nodup_sum_singleton _ _ ?_
       intro p hp q hq h
       simp only [hseg, vseg, dseg, wseg, fdiag, kdiag, ldiag, rdiag, Sym2.eq_iff,
         Prod.mk.injEq, Bool.false_eq_true, Bool.true_eq_false, false_and, and_false,
         true_and, and_true, or_false, false_or, or_self,
         Finset.mem_product, Finset.mem_range, Finset.mem_Ico] at hp hq h
       first
       | omega
       | (rw [Prod.ext_iff]; omega))
    | (refine disjoint_sum_singleton _ _ _ _ ?_
       intro p hp q hq h
       first
       | (simp only [hseg, vseg, dseg, wseg, fdiag, kdiag, ldiag, rdiag, Sym2.eq_iff,
            Prod.mk.injEq, Bool.false_eq_true, Bool.true_eq_false, false_and, and_false,
         true_and, and_true, or_false, false_or, or_self,
            Finset.mem_product, Finset.mem_range, Finset.mem_Ico] at hp hq h
          omega)
       | (simp only [hseg, vseg, dseg, wseg, fdiag, kdiag, ldiag, rdiag, Sym2.eq_iff,
            Prod.mk.injEq, Bool.false_eq_true, Bool.true_eq_false, false_and, and_false,
         true_and, and_true, or_false, false_or, or_self,
            Finset.mem_product, Finset.mem_range, Finset.mem_Ico] at hp hq h))

/-- Every edge of the assembled coordinate mesh joins two in-bounds vertices. -/
theorem edge_ms_valid (r c : ℕ) (hr : 2 ≤ r) (hc : 2 ≤ c) :
    ∀ e ∈ edge_ms r c, ∃ a b, e = s(a, b) ∧ cvalid r c a ∧ cvalid r c b := by
  intro e he
  rw [edge_ms, Multiset.mem_bind] at he
  obtain ⟨F, hF, heF⟩ := he
  rw [Multiset.mem_coe] at hF
  have hval := cfaces_all_valid r c hr hc F hF
  simp only [cedges, Multiset.insert_eq_cons, Multiset.mem_cons,
    Multiset.mem_singleton] at heF
  rcases heF with rfl | rfl | rfl
  · exact ⟨F.1, F.2.1, rfl, hval.1, hval.2.1⟩
  · exact ⟨F.2.1, F.2.2, rfl, hval.2.1, hval.2.2⟩
  · exact ⟨F.1, F.2.2, rfl, hval.1, hval.2.2⟩

/-- Every canonical edge joins two in-bounds vertices. -/
theorem canon_valid (r c : ℕ) (hr : 2 ≤ r) (hc : 2 ≤ c) :
    ∀ e ∈ canon_ms r c, ∃ a b, e = s(a, b) ∧ cvalid r c a ∧ cvalid r c b := by
  intro e he
  refine edge_ms_valid r c hr hc e ?_
  rw [edge_ms_two_canon r c hr hc, two_nsmul]
  exact Multiset.mem_add.mpr (Or.inl he)

/-- The flat encoding of undirected edges is injective on in-bounds edges. -/
theorem sym2_enc_inj (r c : ℕ) (x y : Sym2 CV)
    (hx : ∃ a b, x = s(a, b) ∧ cvalid r c a ∧ cvalid r c b)
    (hy : ∃ a b, y = s(a, b) ∧ cvalid r c a ∧ cvalid r c b)
    (h : Sym2.map (cenc r c) x = Sym2.map (cenc r c) y) : x = y := by
  obtain ⟨a, b, rfl, ha, hb⟩ := hx
  obtain ⟨a', b', rfl, ha', hb'⟩ := hy
  rw [Sym2.map_pair_eq, Sym2.map_pair_eq, Sym2.eq_iff] at h
  rcases h with ⟨h1, h2⟩ | ⟨h1, h2⟩
  · rw [cenc_inj r c a a' ha ha' h1, cenc_inj r c b b' hb hb' h2]
  · rw [cenc_inj r c a b' ha hb' h1, cenc_inj r c b a' hb ha' h2, Sym2.eq_swap]

/-- The canonical edge family stays duplicate-free after flat encoding. -/
theorem canon_map_nodup (r c : ℕ) (hr : 2 ≤ r) (hc : 2 ≤ c) :
    ((canon_ms r c).map (Sym2.map (cenc r c))).Nodup := by
  refine Multiset.Nodup.map_on ?_ (canon_nodup r c hr hc)
  intro x hx y hy h
  exact sym2_enc_inj r c x y (canon_valid r c hr hc x hx) (canon_valid r c hr hc y hy) h

/-- The three corners of every coordinate face are pairwise distinct. -/
theorem cfaces_all_distinct (r c : ℕ) :
    ∀ f ∈ cfaces_all r c, f.1 ≠ f.2.1 ∧ f.2.1 ≠ f.2.2 ∧ f.1 ≠ f.2.2 := by
  intro f hf
  rw [cfaces_all] at hf
  rcases List.mem_append.mp hf with hf' | hfw
  · rcases List.mem_append.mp hf' with hft | hfb
    · rw [mem_cfaces_top] at hft
      obtain ⟨i, hi, j, hj, h | h⟩ := hft <;> subst h <;>
        refine ⟨?_, ?_, ?_⟩ <;> intro hcontra <;>
        first
          | (simp only [ctop, cbot, Prod.mk.injEq, Bool.false_eq_true, Bool.true_eq_false,
               false_and, and_false, true_and, and_true] at hcontra
             omega)
          | simp only [ctop, cbot, Prod.mk.injEq, Bool.false_eq_true, Bool.true_eq_false,
              false_and, and_false, true_and, and_true] at hcontra
    · rw [mem_cfaces_bottom] at hfb
      obtain ⟨i, hi, j, hj, h | h⟩ := hfb <;> subst h <;>
        refine ⟨?_, ?_, ?_⟩ <;> intro hcontra <;>
        first
          | (simp only [ctop, cbot, Prod.mk.injEq, Bool.false_eq_true, Bool.true_eq_false,
               false_and, and_false, true_and, and_true] at hcontra
             omega)
          | simp only [ctop, cbot, Prod.mk.injEq, Bool.false_eq_true, Bool.true_eq_false,
              false_and, and_false, true_and, and_true] at hcontra
  · rcases List.mem_append.mp hfw with hf'' | hfr
    · rcases List.mem_append.mp hf'' with hf''' | hfl
      · rcases List.mem_append.mp hf''' with hff | hfb
        · rw [mem_cfaces_front] at hff
          obtain ⟨j, hj, h | h⟩ := hff <;> subst h <;>
            refine ⟨?_, ?_, ?_⟩ <;> intro hcontra <;>
            first
              | (simp only [ctop, cbot, Prod.mk.injEq, Bool.false_eq_true, Bool.true_eq_false,
                   false_and, and_false, true_and, and_true] at hcontra
                 omega)
              | simp only [ctop, cbot, Prod.mk.injEq, Bool.false_eq_true, Bool.true_eq_false,
                  false_and, and_false, true_and, and_true] at hcontra
        · rw [mem_cfaces_back] at hfb
          obtain ⟨j, hj, h | h⟩ := hfb <;> subst h <;>
            refine ⟨?_, ?_, ?_⟩ <;> intro hcontra <;>
            first
              | (simp only [ctop, cbot, Prod.mk.injEq, Bool.false_eq_true, Bool.true_eq_false,
                   false_and, and_false, true_and, and_true] at hcontra
                 omega)
              | simp only [ctop, cbot, Prod.mk.injEq, Bool.false_eq_true, Bool.true_eq_false,
                  false_and, and_false, true_and, and_true] at hcontra
      · rw [mem_cfaces_left] at hfl
        obtain ⟨i, hi, h | h⟩ := hfl <;> subst h <;>
          refine ⟨?_, ?_, ?_⟩ <;> intro hcontra <;>
          first
            | (simp only [ctop, cbot, Prod.mk.injEq, Bool.false_eq_true, Bool.true_eq_false,
                 false_and, and_false, true_and, and_true] at hcontra
               omega)
            | simp only [ctop, cbot, Prod.mk.injEq, Bool.false_eq_true, Bool.true_eq_false,
                false_and, and_false, true_and, and_true] at hcontra
    · rw [mem_cfaces_right] at hfr
      obtain ⟨i, hi, h | h⟩ := hfr <;> subst h <;>
        refine ⟨?_, ?_, ?_⟩ <;> intro hcontra <;>
        first
          | (simp only [ctop, cbot, Prod.mk.injEq, Bool.false_eq_true, Bool.true_eq_false,
               false_and, and_false, true_and, and_true] at hcontra
             omega)
          | simp only [ctop, cbot, Prod.mk.injEq, Bool.false_eq_true, Bool.true_eq_false,
              false_and, and_false, true_and, and_true] at hcontra

/-- The undirected edges of an encoded face are the encoded edges of the
coordinate face. -/
theorem face_edges_of_enc (r c : ℕ) (F : CV × CV × CV) :
    face_edges (cface_enc r c F) = (cface_edges F).map (Sym2.map (cenc r c)) := by
  simp only [face_edges, cface_enc, cface_edges, List.map_cons, List.map_nil,
    Sym2.map_pair_eq]

/-- Each face of the assembled mesh has three pairwise distinct edges. -/
theorem faces_edges_nodup (r c : ℕ) (hr : 2 ≤ r) (hc : 2 ≤ c) :
    ∀ f ∈ (cfaces_all r c).map (cface_enc r c), (face_edges f).Nodup := by
  intro f hf
  rw [List.mem_map] at hf
  obtain ⟨F, hF, rfl⟩ := hf
  have hval := cfaces_all_valid r c hr hc F hF
  have hdis := cfaces_all_distinct r c F hF
  have d12 : cenc r c F.1 ≠ cenc r c F.2.1 :=
    fun h => hdis.1 (cenc_inj r c _ _ hval.1 hval.2.1 h)
  have d23 : cenc r c F.2.1 ≠ cenc r c F.2.2 :=
    fun h => hdis.2.1 (cenc_inj r c _ _ hval.2.1 hval.2.2 h)
  have d13 : cenc r c F.1 ≠ cenc r c F.2.2 :=
    fun h => hdis.2.2 (cenc_inj r c _ _ hval.1 hval.2.2 h)
  simp only [face_edges, cface_enc, List.nodup_cons, List.mem_cons, List.mem_singleton,
    List.not_mem_nil, or_false, List.nodup_nil, and_true, Sym2.eq_iff]
  first
    | omega
    | tauto

/-- Counting the faces that contain an edge equals counting the edge in the
flattened edge list, provided each face has three distinct edges. -/
theorem countP_flatMap_count (e : Sym2 ℕ) :
    ∀ L : List (ℕ × ℕ × ℕ), (∀ f ∈ L, (face_edges f).Nodup) →
      (L.countP fun f => decide (e ∈ face_edges f)) = (L.flatMap face_edges).count e := by
  intro L
  induction L with
  | nil => intro _; rfl
  | cons f t ih =>
      intro hnd
      rw [List.flatMap_cons, List.count_append, List.countP_cons,
        ← ih fun x hx => hnd x (List.mem_cons_of_mem f hx)]
      by_cases hm : e ∈ face_edges f
      · rw [if_pos (by simpa using hm),
          List.count_eq_one_of_mem (hnd f (List.mem_cons_self f t)) hm]
        omega
      · rw [if_neg (by simpa using hm), List.count_eq_zero.mpr hm]
        omega

/-- Coercion turns a flat map into a multiset bind. -/
theorem coe_flatMap_eq_bind {α β : Type} (l : List α) (g : α → List β) :
    ((l.flatMap g : List β) : Multiset β) =
      ((l : List α) : Multiset α).bind fun a => ((g a : List β) : Multiset β) := by
  induction l with
  | nil => rfl
  | cons x t ih =>
      rw [List.flatMap_cons,
        show ((g x ++ t.flatMap g : List β) : Multiset β) =
          ((g x : List β) : Multiset β) + ((t.flatMap g : List β) : Multiset β) from rfl,
        ih,
        show ((x :: t : List α) : Multiset α) = x ::ₘ ((t : List α) : Multiset α) from rfl,
        Multiset.cons_bind]

/-- Coordinate face edges as a list and as a multiset agree. -/
theorem cedges_coe (F : CV × CV × CV) :
    ((cface_edges F : List (Sym2 CV)) : Multiset (Sym2 CV)) = cedges F := rfl

/-- The flat edge list of the assembled mesh is the encoded coordinate edge
multiset, which is twice the encoded canonical family. -/
theorem mesh_edge_ms (r c : ℕ) (hr : 2 ≤ r) (hc : 2 ≤ c) :
    ((((cfaces_all r c).map (cface_enc r c)).flatMap face_edges : List (Sym2 ℕ)) :
        Multiset (Sym2 ℕ)) =
      2 • ((canon_ms r c).map (Sym2.map (cenc r c))) := by
  rw [List.flatMap_map]
  simp only [face_edges_of_enc]
  rw [← List.map_flatMap]
  rw [show ((((cfaces_all r c).flatMap cface_edges).map (Sym2.map (cenc r c)) :
      List (Sym2 ℕ)) : Multiset (Sym2 ℕ)) =
      (((cfaces_all r c).flatMap cface_edges : List (Sym2 CV)) :
        Multiset (Sym2 CV)).map (Sym2.map (cenc r c)) from rfl]
  rw [coe_flatMap_eq_bind]
  rw [show (fun a => ((cface_edges a : List (Sym2 CV)) : Multiset (Sym2 CV))) = cedges
    from funext cedges_coe]
  rw [show ((cfaces_all r c : List (CV × CV × CV)) :
      Multiset (CV × CV × CV)).bind cedges = edge_ms r c from rfl]
  rw [edge_ms_two_canon r c hr hc, Multiset.map_nsmul]

/-- Every undirected edge of the assembled mesh lies in exactly two
triangles. -/
theorem edge_count_two (cfg : MeshConfig) (g : Grid) (hr : 2 ≤ g.rows)
    (hc : 2 ≤ g.cols) :
    ∀ e ∈ mesh_edges (assembled_mesh cfg g),
      edge_face_count (assembled_mesh cfg g) e = 2 := by
  have hall : (assembled_mesh cfg g).all_faces =
      (cfaces_all g.rows g.cols).map (cface_enc g.rows g.cols) :=
    all_faces_enc g.rows g.cols
  intro e he
  rw [mesh_edges, hall] at he
  have he2 : e ∈ ((((cfaces_all g.rows g.cols).map (cface_enc g.rows g.cols)).flatMap
      face_edges : List (Sym2 ℕ)) : Multiset (Sym2 ℕ)) := Multiset.mem_coe.mpr he
  rw [mesh_edge_ms g.rows g.cols hr hc, two_nsmul] at he2
  have he3 : e ∈ (canon_ms g.rows g.cols).map (Sym2.map (cenc g.rows g.cols)) :=
    (Multiset.mem_add.mp he2).elim id id
  have h1 : Multiset.count e
      ((canon_ms g.rows g.cols).map (Sym2.map (cenc g.rows g.cols))) = 1 :=
    Multiset.count_eq_one_of_mem (canon_map_nodup g.rows g.cols hr hc) he3
  rw [edge_face_count, hall,
    countP_flatMap_count e _ (faces_edges_nodup g.rows g.cols hr hc),
    ← Multiset.coe_count, mesh_edge_ms g.rows g.cols hr hc,
    Multiset.count_nsmul, h1]

/-- C1: for every elevation grid with at least 2 rows and 2 columns, all
samples finite and not all equal, and positive target dimensions,
`create_mesh` succeeds and the assembled triangle list is combinatorially
closed — every undirected edge is shared by exactly two triangles — but the
triangles wind inward, so the total signed volume computed from face normals
is strictly negative rather than positive; it becomes positive only after
the external `fix_normals` repair, and for a perfectly flat grid no finite
volume exists at all. -/
theorem C1_watertight_negative_volume (cfg : MeshConfig) (g : Grid)
    (hr : 2 ≤ g.rows) (hc : 2 ≤ g.cols)
    (hsome : ∀ i j, i < g.rows → j < g.cols → (g.val i j).isSome = true)
    (hneq : nanmax g ≠ nanmin g)
    (hW : 0 < cfg.model_width) (hH : 0 < cfg.model_height)
    (hbase : 0 < cfg.base_thickness) (hs : 0 ≤ cfg.vertical_scale) :
    ∃ m, create_mesh cfg g = Except.ok m ∧
      (∀ e ∈ mesh_edges m, edge_face_count m e = 2) ∧
      ∃ v, signed_volume m = some v ∧ v < 0 :=
  ⟨assembled_mesh cfg g, create_mesh_ok cfg g hr hc,
    edge_count_two cfg g hr hc,
    signed_volume_neg cfg g hr hc hsome hneq hW hH hbase hs⟩

/-- Closed instance of the C1 theorem at the 2×2 ramp grid and the §8
configuration. -/
theorem C1_witness :
    ∃ m, create_mesh cfg_s8 grid_cx = Except.ok m ∧
      (∀ e ∈ mesh_edges m, edge_face_count m e = 2) ∧
      ∃ v, signed_volume m = some v ∧ v < 0 :=
  C1_watertight_negative_volume cfg_s8 grid_cx (by decide) (by decide)
    (by intro i j _ _; by_cases h : j = 1 <;> simp [grid_cx, h])
    (by decide) (by decide) (by decide) (by decide) (by decide)

end TerrainCarver
